import Mathlib

/-!
Verification of the signal-processing core of the Sebas Audio Cutter Pro
repository.  The repository contains two variants of several utilities:
`src/utils/audioUtils.ts` (namespace `AudioUtils` below) and
`src/unnamed/part_000` (namespace `Part000` below).

Embedding conventions:
* An `AudioBuffer` is a sample rate (Hz, a natural number), a length in
  samples, and per-channel sample data.  Samples are embedded as rationals;
  the JavaScript double-precision constants used by the source
  (`0.05`, `0.01`, `0.02`, `0.1`, `0.2`, `0.25`, thresholds such as `0.015`)
  are embedded as the exact rationals they denote.  At the sample rates the
  host audio system admits, the products the source computes
  (`sampleRate * 0.05` etc.) are exactly these rationals.
* `Math.floor` is `Int.floor`/natural division; out-of-range typed-array
  reads are embedded as `List.getD _ _ 0`.
* The band-pass pre-filter used by `removeSilence` and the offline rendering
  of the mastering graph are host-platform capabilities (`BiquadFilterNode`,
  `OfflineAudioContext`); the analysis data produced by the pre-filter and
  the white-noise source `Math.random` are therefore explicit parameters of
  the embedded functions.
* `for` loops over windows (`for (i = 0; i < n; i += w)`) are folds over the
  list of the window start indices the loop visits; the chunking loops of
  `sliceAudioBuffer`, whose termination is itself in question, are embedded
  fuelled, returning `none` when the fuel is exhausted while the loop guard
  still holds.
-/

namespace SebasAudio

/-- A decoded audio buffer: sample rate, length in samples and the
per-channel sample data (`AudioBuffer` of the host platform). -/
structure AudioBuffer where
  sampleRate : ℕ
  length : ℕ
  channels : List (List ℚ)
deriving DecidableEq

/-- `buffer.numberOfChannels`. -/
def AudioBuffer.numberOfChannels (b : AudioBuffer) : ℕ := b.channels.length

/-- `buffer.getChannelData(c)`. -/
def AudioBuffer.getChannelData (b : AudioBuffer) (c : ℕ) : List ℚ :=
  b.channels.getD c []

/-- Reading one sample: `buffer.getChannelData(c)[j]`. -/
def AudioBuffer.sample (b : AudioBuffer) (c j : ℕ) : ℚ :=
  (b.channels.getD c []).getD j 0

/-- The `AudioBuffer` invariant: every channel holds `length` samples. -/
def AudioBuffer.WellFormed (b : AudioBuffer) : Prop :=
  ∀ ch ∈ b.channels, ch.length = b.length

instance (b : AudioBuffer) : Decidable b.WellFormed := by
  unfold AudioBuffer.WellFormed; infer_instance

/-- `createBuffer` zero-fills; copying a (possibly shorter) slice into a
fresh buffer of length `n` leaves the tail at `0`. -/
def padTo (n : ℕ) (l : List ℚ) : List ℚ :=
  l ++ List.replicate (n - l.length) 0

/-- The start indices visited by `for (i = 0; i < len; i += step)`
(for `step ≥ 1`). -/
def loopIndices (len step : ℕ) : List ℕ :=
  (List.range ((len + step - 1) / step)).map (fun k => k * step)

/-- The indices visited by the backward scan `for (i = len; i > 0; i -= step)`
(for `step ≥ 1`). -/
def backIndices (len step : ℕ) : List ℕ :=
  (List.range ((len + step - 1) / step)).map (fun k => len - k * step)

/-- The fade-in loop
`for (j = 0; j < fadeLen && j < chunkLen; j++) data[j] *= j / fadeLen`. -/
def fadeIn (fadeLen : ℕ) (l : List ℚ) : List ℚ :=
  l.mapIdx (fun j x => if j < fadeLen then x * ((j : ℚ) / (fadeLen : ℚ)) else x)

/-- The fade-out loop
`for (j = 0; j < fadeLen && j < chunkLen; j++) data[len - 1 - j] *= j / fadeLen`;
the element at position `k` is scaled by `(len - 1 - k) / fadeLen` exactly when
`len - 1 - k < fadeLen`. -/
def fadeOut (fadeLen : ℕ) (l : List ℚ) : List ℚ :=
  l.mapIdx (fun k x =>
    if l.length - 1 - k < fadeLen then
      x * (((l.length - 1 - k : ℕ) : ℚ) / (fadeLen : ℚ))
    else x)

/-- Natural powers of a rational, written recursively so that concrete
values reduce (`Math.pow` with the natural exponents the source uses). -/
def qpow (x : ℚ) : ℕ → ℚ
  | 0 => 1
  | n + 1 => x * qpow x n

namespace AudioUtils

/-! ### `src/utils/audioUtils.ts` -/

/-- `interleave(inputL, inputR)` for the equal-length channels every caller
passes (both channels of one buffer share its length). -/
def interleave : List ℚ → List ℚ → List ℚ
  | x :: xs, y :: ys => x :: y :: interleave xs ys
  | _, _ => []

/-- The little-endian bytes `setUint16(offset, v, true)` writes. -/
def uint16LE (v : ℕ) : List ℕ :=
  [v % 2 ^ 16 % 256, v % 2 ^ 16 / 256]

/-- The little-endian bytes `setUint32(offset, v, true)` writes. -/
def uint32LE (v : ℕ) : List ℕ :=
  [v % 2 ^ 32 % 256, v % 2 ^ 32 / 256 % 256, v % 2 ^ 32 / 2 ^ 16 % 256,
    v % 2 ^ 32 / 2 ^ 24 % 256]

/-- Truncation toward zero, as the host applies to the number passed to
`setInt16`. -/
def truncQ (x : ℚ) : ℤ :=
  if x < 0 then -(Int.floor (-x)) else Int.floor x

/-- The integer written for one sample by `floatTo16BitPCM`:
`s = Math.max(-1, Math.min(1, x)); s < 0 ? s * 0x8000 : s * 0x7FFF`. -/
def pcm16Int (x : ℚ) : ℤ :=
  let s := max (-1) (min 1 x)
  truncQ (if s < 0 then s * 32768 else s * 32767)

/-- The two little-endian bytes `setInt16` stores for an integer value. -/
def int16LE (v : ℤ) : List ℕ :=
  [(v % 65536).toNat % 256, (v % 65536).toNat / 256]

/-- `floatTo16BitPCM(view, offset, input)`: consecutive 16-bit
little-endian samples. -/
def floatTo16BitPCM (samples : List ℚ) : List ℕ :=
  (samples.map (fun x => int16LE (pcm16Int x))).flatten

/-- `encodeWAV(samples, numChannels, sampleRate, format, bitDepth)`: the
44-byte RIFF/WAVE/fmt/data header followed by the PCM data, as the byte
sequence of the produced blob. -/
def encodeWAV (samples : List ℚ) (numChannels sampleRate format bitDepth : ℕ) :
    List ℕ :=
  let bytesPerSample := bitDepth / 8
  let blockAlign := numChannels * bytesPerSample
  [82, 73, 70, 70]                                    -- 'RIFF'
    ++ uint32LE (36 + samples.length * bytesPerSample) -- RIFF chunk length
    ++ [87, 65, 86, 69]                                -- 'WAVE'
    ++ [102, 109, 116, 32]                             -- 'fmt '
    ++ uint32LE 16                                     -- format chunk length
    ++ uint16LE format                                 -- sample format
    ++ uint16LE numChannels                            -- channel count
    ++ uint32LE sampleRate                             -- sample rate
    ++ uint32LE (sampleRate * blockAlign)              -- byte rate
    ++ uint16LE blockAlign                             -- block align
    ++ uint16LE bitDepth                               -- bits per sample
    ++ [100, 97, 116, 97]                              -- 'data'
    ++ uint32LE (samples.length * bytesPerSample)      -- data chunk length
    ++ floatTo16BitPCM samples

/-- `audioBufferToWav(buffer)`: stereo buffers are interleaved L/R, mono
buffers pass channel 0 through; always 16-bit PCM, format 1. -/
def audioBufferToWav (b : AudioBuffer) : List ℕ :=
  let result :=
    if b.numberOfChannels = 2 then
      interleave (b.getChannelData 0) (b.getChannelData 1)
    else b.getChannelData 0
  encodeWAV result b.numberOfChannels b.sampleRate 1 16

/-- Little-endian reader for checking header fields (`count` bytes starting
at `off`). -/
def readLE (bs : List ℕ) (off count : ℕ) : ℕ :=
  ((List.range count).map (fun k => bs.getD (off + k) 0 * 256 ^ k)).sum

/-- State of the voice-activity scan of `removeSilence`
(`isSpeaking`, `startParams`, `silenceStart`, `regionsToKeep`). -/
structure SegState where
  isSpeaking : Bool
  startParams : ℚ
  silenceStart : ℕ
  regions : List (ℚ × ℚ)
deriving DecidableEq

/-- The initial scan state (`false`, `0`, `0`, `[]`). -/
def SegState.init : SegState := ⟨false, 0, 0, []⟩

/-- The per-window loudness test of `removeSilence`: the source computes
`rms = Math.sqrt(sum / (end - i))` over the filtered data and tests
`rms > threshold`; for the non-negative thresholds the function is used with
this is equivalent to `threshold * threshold < sum / (end - i)`, which is
the exact form used here (ℚ has no square root). -/
def windowLoud (data : List ℚ) (n w : ℕ) (threshold : ℚ) (i : ℕ) : Bool :=
  let endI := min (i + w) n
  let sum :=
    ((List.range (endI - i)).map
      (fun k => data.getD (i + k) 0 * data.getD (i + k) 0)).sum
  decide (threshold * threshold < sum / ((endI - i : ℕ) : ℚ))

/-- One window of the `removeSilence` state machine (the body of the
`for (i = 0; i < numSamples; i += windowSize)` loop). -/
def silenceStep (data : List ℚ) (rate n w : ℕ) (threshold minSilence : ℚ)
    (st : SegState) (i : ℕ) : SegState :=
  if windowLoud data n w threshold i then
    -- opening a region backtracks by 250 ms: max(0, i - sampleRate * 0.25)
    SegState.mk true
      (if st.isSpeaking then st.startParams
       else max 0 ((i : ℚ) - (rate : ℚ) * (1 / 4)))
      0 st.regions
  else if st.isSpeaking then
    if st.silenceStart = 0 then
      SegState.mk st.isSpeaking st.startParams i st.regions
    else if minSilence < ((i : ℚ) - (st.silenceStart : ℚ)) / (rate : ℚ) then
      -- close the region with a 200 ms release trail:
      -- min(numSamples, silenceStart + sampleRate * 0.2)
      SegState.mk false st.startParams st.silenceStart
        (st.regions ++
          [(st.startParams,
            min ((n : ℕ) : ℚ) ((st.silenceStart : ℚ) + (rate : ℚ) * (1 / 5)))])
    else st
  else st

/-- The region list `removeSilence` computes from the band-pass-filtered
analysis data (`data`), including the end-of-buffer push guarded by
`isSpeaking || silenceStart > 0`. -/
def computeRegions (data : List ℚ) (rate n : ℕ) (threshold minSilence : ℚ) :
    List (ℚ × ℚ) :=
  let w := rate / 20
  let final := (loopIndices n w).foldl
    (silenceStep data rate n w threshold minSilence) SegState.init
  if final.isSpeaking ∨ 0 < final.silenceStart then
    final.regions ++ [(final.startParams, ((n : ℕ) : ℚ))]
  else final.regions

/-- Materialising the regions from the original buffer; regions spanning
fewer than 1000 samples are skipped (`if (length < 1000) continue`). -/
def extractRegions (b : AudioBuffer) (regions : List (ℚ × ℚ)) :
    List AudioBuffer :=
  regions.filterMap (fun r =>
    let len := r.2 - r.1
    if len < 1000 then none
    else
      let L := len.floor.toNat
      let s := r.1.floor.toNat
      let e := r.2.floor.toNat
      some (AudioBuffer.mk b.sampleRate L
        (b.channels.map (fun ch => padTo L ((ch.drop s).take (e - s))))))

/-- `removeSilence` of `audioUtils.ts`, given the analysis data produced by
the host band-pass pre-filter: if the scan found no regions the original
buffer is returned as a single chunk, otherwise the surviving regions are
extracted. -/
def removeSilenceCore (data : List ℚ) (b : AudioBuffer)
    (threshold minSilence : ℚ) : List AudioBuffer :=
  let regions := computeRegions data b.sampleRate b.length threshold minSilence
  if regions = [] then [b] else extractRegions b regions

/-- `Math.floor(rate * segmentDuration)`, the chunk length in samples. -/
def segmentLengthOf (b : AudioBuffer) (segmentDuration : ℚ) : ℕ :=
  (Int.floor ((b.sampleRate : ℚ) * segmentDuration)).toNat

/-- The segment buffer built by one iteration of the `sliceAudioBuffer` loop
of `audioUtils.ts` (no fades in this variant). -/
def mkSegment (b : AudioBuffer) (segmentLength offset : ℕ) : AudioBuffer :=
  let cur := min segmentLength (b.length - offset)
  AudioBuffer.mk b.sampleRate cur
    (b.channels.map (fun ch => padTo cur ((ch.drop offset).take cur)))

/-- The `for (offset = 0; offset < length; offset += segmentLength)` loop of
`sliceAudioBuffer` in `audioUtils.ts`, fuelled: `none` models the loop still
running when the fuel is exhausted (the loop does not terminate when
`segmentLength = 0` and the buffer is non-empty). -/
def sliceLoop (b : AudioBuffer) (segmentLength : ℕ) :
    ℕ → ℕ → Option (List AudioBuffer)
  | 0, offset => if offset < b.length then none else some []
  | fuel + 1, offset =>
    if offset < b.length then
      (sliceLoop b segmentLength fuel (offset + segmentLength)).map
        (fun rest => mkSegment b segmentLength offset :: rest)
    else some []

end AudioUtils

namespace Part000

/-! ### `src/unnamed/part_000` -/

/-- State of the voice-activity scan of the `removeSilence` variant in
`part_000` (`isSpeaking`, `speechStart`, `silenceDuration`, `regionsToKeep`). -/
structure SegState where
  isSpeaking : Bool
  speechStart : ℕ
  silenceDuration : ℚ
  regions : List (ℕ × ℕ)
deriving DecidableEq

/-- The initial scan state (`false`, `0`, `0`, `[]`). -/
def SegState.init : SegState := ⟨false, 0, 0, []⟩

/-- The per-window loudness test of this variant: mean absolute amplitude of
the window compared against the threshold (`avg > threshold`). -/
def windowLoud (data : List ℚ) (n w : ℕ) (threshold : ℚ) (i : ℕ) : Bool :=
  let endI := min (i + w) n
  let sum := ((List.range (endI - i)).map (fun k => |data.getD (i + k) 0|)).sum
  decide (threshold < sum / ((endI - i : ℕ) : ℚ))

/-- One window of the `part_000` `removeSilence` state machine. -/
def silenceStep (data : List ℚ) (rate n w : ℕ) (threshold minSilence : ℚ)
    (st : SegState) (i : ℕ) : SegState :=
  let endI := min (i + w) n
  if windowLoud data n w threshold i then
    SegState.mk true (if st.isSpeaking then st.speechStart else i) 0 st.regions
  else if st.isSpeaking then
    let sd := st.silenceDuration + ((endI - i : ℕ) : ℚ) / (rate : ℚ)
    if minSilence < sd then
      SegState.mk false st.speechStart sd (st.regions ++ [(st.speechStart, i)])
    else SegState.mk st.isSpeaking st.speechStart sd st.regions
  else st

/-- The region list computed by the `part_000` variant (final push only
`if (isSpeaking)`). -/
def computeRegions (data : List ℚ) (rate n : ℕ) (threshold minSilence : ℚ) :
    List (ℕ × ℕ) :=
  let w := rate / 20
  let final := (loopIndices n w).foldl
    (silenceStep data rate n w threshold minSilence) SegState.init
  if final.isSpeaking then final.regions ++ [(final.speechStart, n)]
  else final.regions

/-- Materialising the regions; regions shorter than 0.1 s are skipped
(`if (len < sampleRate * 0.1) continue`). -/
def extractRegions (b : AudioBuffer) (regions : List (ℕ × ℕ)) :
    List AudioBuffer :=
  regions.filterMap (fun r =>
    let len := r.2 - r.1
    if ((len : ℕ) : ℚ) < (b.sampleRate : ℚ) / 10 then none
    else some (AudioBuffer.mk b.sampleRate len
      (b.channels.map (fun ch => padTo len ((ch.drop r.1).take (r.2 - r.1))))))

/-- `removeSilence` of `part_000`, given the analysis data produced by the
host band-pass pre-filter.  This variant has no fallback: when no region
survives it returns the empty list. -/
def removeSilenceCore (data : List ℚ) (b : AudioBuffer)
    (threshold minSilence : ℚ) : List AudioBuffer :=
  extractRegions b (computeRegions data b.sampleRate b.length threshold minSilence)

/-- The average signed into the trim scans: for the window `[lo, hi)` the
absolute amplitudes of all channels are summed jointly and divided by the
total count `(hi - lo) * numberOfChannels`. -/
def windowAvg (b : AudioBuffer) (lo hi : ℕ) : ℚ :=
  let sum := ((List.range (hi - lo)).map
    (fun k => (b.channels.map (fun ch => |ch.getD (lo + k) 0|)).sum)).sum
  sum / (((hi - lo) * b.numberOfChannels : ℕ) : ℚ)

/-- The forward scan of `trimAudio`: the first window whose average exceeds
the threshold sets `start = max(0, i - windowSize)`; if none does, `start`
stays `0`. -/
def trimFindStart (b : AudioBuffer) (w : ℕ) (threshold : ℚ) : ℕ :=
  match (loopIndices b.length w).find?
      (fun i => decide (threshold < windowAvg b i (min (i + w) b.length))) with
  | some i => i - w
  | none => 0

/-- The backward scan of `trimAudio`: the first window (scanning from the
end) whose average exceeds the threshold sets `end = min(len, i + windowSize)`;
if none does, `end` stays `len`. -/
def trimFindEnd (b : AudioBuffer) (w : ℕ) (threshold : ℚ) : ℕ :=
  match (backIndices b.length w).find?
      (fun i => decide (threshold < windowAvg b (i - w) i)) with
  | some i => min b.length (i + w)
  | none => b.length

/-- `trimAudio(buffer, threshold = 0.015)`: crop to `[start, end)` and apply
20 ms fades; if `start ≥ end` the input buffer is returned unchanged. -/
def trimAudio (b : AudioBuffer) (threshold : ℚ) : AudioBuffer :=
  let w := b.sampleRate / 20
  let start := trimFindStart b w threshold
  let endI := trimFindEnd b w threshold
  if endI ≤ start then b
  else
    let newLen := endI - start
    let fadeSamples := b.sampleRate / 50
    AudioBuffer.mk b.sampleRate newLen
      (b.channels.map (fun ch =>
        fadeOut fadeSamples (fadeIn fadeSamples
          (padTo newLen ((ch.drop start).take newLen)))))

/-- `Math.floor(segmentDuration * sampleRate)`. -/
def segmentLengthOf (b : AudioBuffer) (segmentDuration : ℚ) : ℕ :=
  (Int.floor (segmentDuration * (b.sampleRate : ℚ))).toNat

/-- The chunk built by one kept iteration of the `sliceAudioBuffer` loop of
`part_000`: copy the window and apply the 10 ms fade-in and fade-out. -/
def mkChunk (b : AudioBuffer) (segmentLen fadeLen offset : ℕ) : AudioBuffer :=
  let endI := min (offset + segmentLen) b.length
  let chunkLen := endI - offset
  AudioBuffer.mk b.sampleRate chunkLen
    (b.channels.map (fun ch =>
      fadeOut fadeLen (fadeIn fadeLen
        (padTo chunkLen ((ch.drop offset).take chunkLen)))))

/-- The `for (i = 0; i < len; i += segmentLen)` loop of `sliceAudioBuffer`
in `part_000`, fuelled; chunks shorter than 0.1 s are skipped
(`if (chunkLen < sampleRate * 0.1) continue`). -/
def sliceLoop (b : AudioBuffer) (segmentLen fadeLen : ℕ) :
    ℕ → ℕ → Option (List AudioBuffer)
  | 0, offset => if offset < b.length then none else some []
  | fuel + 1, offset =>
    if offset < b.length then
      let chunkLen := min (offset + segmentLen) b.length - offset
      if ((chunkLen : ℕ) : ℚ) < (b.sampleRate : ℚ) / 10 then
        sliceLoop b segmentLen fadeLen fuel (offset + segmentLen)
      else
        (sliceLoop b segmentLen fadeLen fuel (offset + segmentLen)).map
          (fun rest => mkChunk b segmentLen fadeLen offset :: rest)
    else some []

/-! ### Mastering chain (`part_000`) -/

/-- The preset enumeration of `MasteringOptions`. -/
inductive MasteringPreset where
  | music
  | podcast
  | narration
deriving DecidableEq

/-- `MasteringOptions`: a preset and five intensity levels;
`reverbLevel` is optional and defaults to `0`. -/
structure MasteringOptions where
  preset : MasteringPreset
  enhanceLevel : ℚ
  denoiseLevel : ℚ
  sibilanceLevel : ℚ
  roomTreatmentLevel : ℚ
  reverbLevel : Option ℚ
deriving DecidableEq

/-- The biquad filter types the chain uses. -/
inductive BiquadFilterType where
  | lowpass
  | highpass
  | lowshelf
  | highshelf
  | peaking
deriving DecidableEq

/-- Parameters of a `BiquadFilterNode`; fields the source leaves unset keep
the Web Audio defaults (`frequency = 350`, `Q = 1`, `gain = 0`). -/
structure BiquadParams where
  type : BiquadFilterType
  frequency : ℚ
  Q : ℚ
  gain : ℚ
deriving DecidableEq

/-- One node of the constructed mastering graph. -/
inductive AudioStage where
  | gainNode (gain : ℚ)
  | biquad (p : BiquadParams)
  | compressor (threshold knee ratio attack release : ℚ)
deriving DecidableEq

/-- The parallel wet branch: the convolver impulse (left/right) and the send
gain (`reverbLevel * 0.6`). -/
structure ReverbSend where
  impulseLeft : List ℚ
  impulseRight : List ℚ
  sendGain : ℚ
deriving DecidableEq

/-- The graph `createMasteringChain` wires: the serial dry path from the
input gain to the makeup gain, plus the optional parallel reverb branch. -/
structure MasteringChain where
  serial : List AudioStage
  reverb : Option ReverbSend
deriving DecidableEq

/-- `createReverbImpulse(context, duration, decay)`: a stereo impulse of
`rate * duration` samples of white noise under an exponential decay
envelope.  The white-noise source `Math.random()` is the explicit stream
`rand`; the source calls the function with the decay exponent `3.0`, which
is embedded as the natural power `decay`. -/
def createReverbImpulse (rand : ℕ → ℚ) (rate : ℕ) (duration : ℚ) (decay : ℕ) :
    List ℚ × List ℚ :=
  let len := (Int.floor ((rate : ℚ) * duration)).toNat
  let samples := (List.range len).map
    (fun i => (rand i * 2 - 1) * qpow (1 - (i : ℚ) / (len : ℚ)) decay)
  (samples, samples)

/-- `createMasteringChain(context, destination, options)` as the description
of the node graph it wires, in connection order.  `pow07` is the host's
`Math.pow(·, 0.7)` (irrational, hence an explicit parameter; it is only
consulted when `denoiseLevel > 0`), `rand` the host's `Math.random`. -/
def createMasteringChain (pow07 : ℚ → ℚ) (rand : ℕ → ℚ) (rate : ℕ)
    (options : MasteringOptions) : MasteringChain :=
  let reverbLevel := options.reverbLevel.getD 0
  -- 1. Denoise (gates/filters), only if denoiseLevel > 0
  let denoiseStages : List AudioStage :=
    if 0 < options.denoiseLevel then
      [AudioStage.biquad (BiquadParams.mk .highpass
          (70 + options.denoiseLevel * 130) 0.6 0),
       AudioStage.biquad (BiquadParams.mk .highshelf 5000 1
          (-(pow07 options.denoiseLevel * 18)))]
      ++ (if 0.3 < options.denoiseLevel then
            [AudioStage.biquad (BiquadParams.mk .lowpass
                (max 4000 (18000 - (options.denoiseLevel - 0.3) / 0.7 * 14000))
                0.5 0)]
          else [])
    else []
  -- 2. Room treatment (de-box), only if roomTreatmentLevel > 0
  let roomStages : List AudioStage :=
    if 0 < options.roomTreatmentLevel then
      [AudioStage.biquad (BiquadParams.mk .peaking 400 1.2
          (-(options.roomTreatmentLevel * 12))),
       AudioStage.biquad (BiquadParams.mk .peaking 200 1
          (-(options.roomTreatmentLevel * 6)))]
    else []
  -- 3. De-esser, only if sibilanceLevel > 0
  let deEsserStages : List AudioStage :=
    if 0 < options.sibilanceLevel then
      [AudioStage.biquad (BiquadParams.mk .peaking 7500 2.5
          (-(options.sibilanceLevel * 24)))]
      ++ (if 0.3 < options.sibilanceLevel then
            [AudioStage.biquad (BiquadParams.mk .highshelf 10000 1
                (-(options.sibilanceLevel * 6)))]
          else [])
    else []
  -- 4. Tone EQ (always present); baseline lowshelf@100, highshelf@8000,
  --    peaking@2500 Q 1, then the preset overrides
  let boost := options.enhanceLevel * 6
  let eqStages : List AudioStage :=
    match options.preset with
    | .music =>
      [AudioStage.biquad (BiquadParams.mk .lowshelf 60 1 (boost * 0.6)),
       AudioStage.biquad (BiquadParams.mk .highshelf 12000 1 (boost * 0.6)),
       AudioStage.biquad (BiquadParams.mk .peaking 300 0.8 (-(boost * 0.2)))]
    | .podcast =>
      [AudioStage.biquad (BiquadParams.mk .lowshelf 100 1 (boost * 0.5)),
       AudioStage.biquad (BiquadParams.mk .highshelf 8000 1 (boost * 0.5)),
       AudioStage.biquad (BiquadParams.mk .peaking 2500 1 (boost * 0.5))]
    | .narration =>
      [AudioStage.biquad (BiquadParams.mk .lowshelf 120 1 (boost * 1.6)),
       AudioStage.biquad (BiquadParams.mk .highshelf 8000 1 (boost * 0.1)),
       AudioStage.biquad (BiquadParams.mk .peaking 2000 1 (boost * 0.6))]
  -- 5. Dynamics compression (always present)
  let comp : AudioStage :=
    match options.preset with
    | .music =>
      AudioStage.compressor (-14) 15 (1.5 + options.enhanceLevel * 1.5) 0.05 0.2
    | _ =>
      AudioStage.compressor (-18) 10 (4 + options.enhanceLevel * 12) 0.002 0.15
  -- 6. Makeup gain (always present)
  let makeup := AudioStage.gainNode (1 + options.enhanceLevel * 0.6)
  -- 7. Reverb (parallel), only if reverbLevel > 0
  let reverb : Option ReverbSend :=
    if 0 < reverbLevel then
      let impulse := createReverbImpulse rand rate 1.5 3
      some (ReverbSend.mk impulse.1 impulse.2 (reverbLevel * 0.6))
    else none
  MasteringChain.mk
    ([AudioStage.gainNode 1] ++ denoiseStages ++ roomStages ++ deEsserStages
      ++ eqStages ++ [comp, makeup])
    reverb

/-- The chain `masterAudio(buffer, options)` builds before the offline
render: the offline context is created at the buffer's sample rate, so the
reverb impulse (when any) is generated at that rate. -/
def masterAudioChain (pow07 : ℚ → ℚ) (rand : ℕ → ℚ) (b : AudioBuffer)
    (options : MasteringOptions) : MasteringChain :=
  createMasteringChain pow07 rand b.sampleRate options

/-- The per-preset graph the chain degenerates to when the four gated levels
are `0`, `enhanceLevel = 0` and the reverb level defaults to `0`: the input
gain, the tone EQ at 0 dB, the preset's compressor and a unity makeup
gain — not an empty (pure dry) path. -/
def dryChainOf (preset : MasteringPreset) : MasteringChain :=
  MasteringChain.mk
    ([AudioStage.gainNode 1]
      ++ (match preset with
          | .music =>
            [AudioStage.biquad (BiquadParams.mk .lowshelf 60 1 0),
             AudioStage.biquad (BiquadParams.mk .highshelf 12000 1 0),
             AudioStage.biquad (BiquadParams.mk .peaking 300 0.8 0)]
          | .podcast =>
            [AudioStage.biquad (BiquadParams.mk .lowshelf 100 1 0),
             AudioStage.biquad (BiquadParams.mk .highshelf 8000 1 0),
             AudioStage.biquad (BiquadParams.mk .peaking 2500 1 0)]
          | .narration =>
            [AudioStage.biquad (BiquadParams.mk .lowshelf 120 1 0),
             AudioStage.biquad (BiquadParams.mk .highshelf 8000 1 0),
             AudioStage.biquad (BiquadParams.mk .peaking 2000 1 0)])
      ++ [(match preset with
           | .music => AudioStage.compressor (-14) 15 1.5 0.05 0.2
           | _ => AudioStage.compressor (-18) 10 4 0.002 0.15),
          AudioStage.gainNode 1])
    none

end Part000

/-- Non-overlap of a region list, as the spec states it: each region ends no
later than the next one starts. -/
def RegionsSeparated (rs : List (ℚ × ℚ)) : Prop :=
  List.Chain' (fun r s => r.2 ≤ s.1) rs

instance (rs : List (ℚ × ℚ)) : Decidable (RegionsSeparated rs) := by
  unfold RegionsSeparated; infer_instance

/-- The combined scale the fade-in and fade-out loops apply to the sample at
position `j` of a freshly cut buffer of `total` samples. -/
def fadeFactor (fadeLen total j : ℕ) : ℚ :=
  (if j < fadeLen then (j : ℚ) / (fadeLen : ℚ) else 1) *
    (if total - 1 - j < fadeLen then ((total - 1 - j : ℕ) : ℚ) / (fadeLen : ℚ)
     else 1)

/-- The WAV bytes produced for a stereo buffer with channel data `L`, `R`. -/
def AudioUtils.wavOut (L R : List ℚ) (rate : ℕ) : List ℕ :=
  AudioUtils.audioBufferToWav (AudioBuffer.mk rate L.length [L, R])

/-!
## Theorems
-/

/-- A quiet window leaves the initial `removeSilence` scan state unchanged. -/
lemma AudioUtils.silenceStep_quiet (data : List ℚ) (rate n w : ℕ)
    (t minS : ℚ) (i : ℕ) (h : AudioUtils.windowLoud data n w t i = false) :
    AudioUtils.silenceStep data rate n w t minS AudioUtils.SegState.init i =
      AudioUtils.SegState.init := by
  simp [AudioUtils.silenceStep, h, AudioUtils.SegState.init]

/-- A scan over only quiet windows stays in the initial state. -/
lemma AudioUtils.foldl_quiet (data : List ℚ) (rate n w : ℕ) (t minS : ℚ) :
    ∀ l : List ℕ, (∀ i ∈ l, AudioUtils.windowLoud data n w t i = false) →
      l.foldl (AudioUtils.silenceStep data rate n w t minS)
        AudioUtils.SegState.init = AudioUtils.SegState.init := by
  intro l
  induction l with
  | nil => intro _; rfl
  | cons a l ih =>
    intro h
    rw [List.foldl_cons,
      AudioUtils.silenceStep_quiet data rate n w t minS a (h a (by simp))]
    exact ih (fun i hi => h i (by simp [hi]))

set_option maxRecDepth 80000 in
/-- C1 (counterexample): with all five levels at `0` the mastering chain is
not a pure dry path: beyond the input gain it still inserts the tone EQ, a
dynamics compressor (threshold −18 dB, ratio 4) and the makeup gain. -/
theorem C1_counterexample :
    (Part000.masterAudioChain (fun x => x) (fun _ => 0)
          (AudioBuffer.mk 44100 1 [[0]])
          (Part000.MasteringOptions.mk .podcast 0 0 0 0 (some 0))).serial ≠
        [Part000.AudioStage.gainNode 1] ∧
      Part000.AudioStage.compressor (-18) 10 4 0.002 0.15 ∈
        (Part000.masterAudioChain (fun x => x) (fun _ => 0)
          (AudioBuffer.mk 44100 1 [[0]])
          (Part000.MasteringOptions.mk .podcast 0 0 0 0 (some 0))).serial := by
  with_unfolding_all decide

/-- C1 (amended): with `enhance = denoise = sibilance = roomTreatment = 0`
and the reverb level absent or `≤ 0`, every level-gated stage (denoise, room
treatment, de-esser, reverb) is omitted, and the chain is exactly: input
gain, the preset's tone EQ with all gains at 0 dB, the preset's compressor,
and a unity makeup gain. -/
theorem C1_amended (pow07 : ℚ → ℚ) (rand : ℕ → ℚ) (b : AudioBuffer)
    (preset : Part000.MasteringPreset) (rv : Option ℚ)
    (hrv : rv.getD 0 ≤ 0) :
    Part000.masterAudioChain pow07 rand b
        (Part000.MasteringOptions.mk preset 0 0 0 0 rv) =
      Part000.dryChainOf preset := by
  have h := not_lt.mpr hrv
  cases preset <;>
    simp [Part000.masterAudioChain, Part000.createMasteringChain,
      Part000.dryChainOf, h]

/-- Witness for `C1_amended`. -/
theorem C1_amended_witness :
    Part000.masterAudioChain (fun x => x) (fun _ => 0)
        (AudioBuffer.mk 44100 1 [[0]])
        (Part000.MasteringOptions.mk .podcast 0 0 0 0 (some 0)) =
      Part000.dryChainOf .podcast :=
  C1_amended (fun x => x) (fun _ => 0) (AudioBuffer.mk 44100 1 [[0]])
    .podcast (some 0) (by norm_num)

/-- C2 (counterexample): the `part_000` variant of `removeSilence` has no
fallback: on an analysis signal that is silent throughout (here: the
band-pass output for a digitally silent stretch) it returns the empty list,
not the original buffer as a single-element list. -/
theorem C2_counterexample :
    Part000.removeSilenceCore (List.replicate 50 0)
        (AudioBuffer.mk 100 50 [List.replicate 50 (1/2)]) 0.02 0.4 = [] ∧
      ([] : List AudioBuffer) ≠
        [AudioBuffer.mk 100 50 [List.replicate 50 (1/2)]] := by
  with_unfolding_all decide

/-- C2 (amended): in the `audioUtils.ts` variant, whenever the windowed scan
finds no region at all (every analysis window below the RMS threshold), the
original buffer is returned unchanged as a single-element list.  (When the
scan does find regions but the `< 1000` samples post-filter discards them
all, that variant returns the empty list, and the `part_000` variant never
falls back — see the counterexample.) -/
theorem C2_amended (data : List ℚ) (b : AudioBuffer) (t minS : ℚ)
    (h : ∀ i ∈ loopIndices b.length (b.sampleRate / 20),
      AudioUtils.windowLoud data b.length (b.sampleRate / 20) t i = false) :
    AudioUtils.removeSilenceCore data b t minS = [b] := by
  have hfold := AudioUtils.foldl_quiet data b.sampleRate b.length
    (b.sampleRate / 20) t minS (loopIndices b.length (b.sampleRate / 20)) h
  unfold AudioUtils.removeSilenceCore AudioUtils.computeRegions
  simp only [hfold]
  simp [AudioUtils.SegState.init]

set_option maxRecDepth 80000 in
/-- Witness for `C2_amended`. -/
theorem C2_amended_witness :
    AudioUtils.removeSilenceCore (List.replicate 100 0)
        (AudioBuffer.mk 100 100 [List.replicate 100 (1/2)]) 0.02 0.4 =
      [AudioBuffer.mk 100 100 [List.replicate 100 (1/2)]] :=
  C2_amended (List.replicate 100 0)
    (AudioBuffer.mk 100 100 [List.replicate 100 (1/2)]) 0.02 0.4
    (by with_unfolding_all decide)

set_option maxRecDepth 80000 in
/-- C3 (code evaluation at the failing input): on an analysis signal with
one loud window followed by silence to the end of the buffer
(sample rate 20 Hz, 12 samples, defaults `threshold = 0.02`,
`minSilenceDuration = 0.4`), the `audioUtils.ts` segmenter emits the regions
`(0, 5)` and `(0, 12)`: after the region closes at the window where the
accumulated silence exceeds 0.4 s, `silenceStart` is never reset, so the
end-of-buffer push (guarded by `isSpeaking || silenceStart > 0`) fires again
with the stale `startParams`, and the second region overlaps (indeed
contains) the first.  The same trace arises at any sample rate. -/
theorem C3_overlap_eval :
    AudioUtils.computeRegions
        ((1/2) :: List.replicate 11 0) 20 12 0.02 0.4 =
      [(0, 5), (0, 12)] ∧
    ¬ RegionsSeparated [((0 : ℚ), (5 : ℚ)), (0, 12)] := by
  constructor
  · with_unfolding_all decide
  · simp [RegionsSeparated, List.chain'_cons, List.chain'_singleton]

/-- C4 (counterexample): a 6-sample buffer at 100 Hz holding `0.01`
everywhere is below the default threshold `0.015` in every forward and
backward analysis window, yet `trimAudio` does not return it unmodified: the
scans yield `start = 0 < end = length`, so a full-length copy with 20 ms
fades is produced (its first sample becomes `0 ≠ 0.01`). -/
theorem C4_counterexample :
    (∀ i ∈ loopIndices 6 5,
      Part000.windowAvg (AudioBuffer.mk 100 6 [List.replicate 6 (1/100)]) i
          (min (i + 5) 6) ≤ 0.015) ∧
    (∀ i ∈ backIndices 6 5,
      Part000.windowAvg (AudioBuffer.mk 100 6 [List.replicate 6 (1/100)])
          (i - 5) i ≤ 0.015) ∧
    Part000.trimAudio (AudioBuffer.mk 100 6 [List.replicate 6 (1/100)])
        0.015 ≠ AudioBuffer.mk 100 6 [List.replicate 6 (1/100)] := by
  with_unfolding_all decide

/-- C5 (counterexample): for a 10-sample buffer at 100 Hz holding `0.5`
everywhere, the second scan of the trimmed result finds `start = 0` and
`end = length` (the claim's hypothesis), yet `trimAudio` applied twice is
not idempotent: the 20 ms fades are applied again, so sample 1 drops from
`0.25` to `0.125`. -/
theorem C5_counterexample :
    Part000.trimFindStart
        (Part000.trimAudio (AudioBuffer.mk 100 10 [List.replicate 10 (1/2)])
          0.015) 5 0.015 = 0 ∧
    Part000.trimFindEnd
        (Part000.trimAudio (AudioBuffer.mk 100 10 [List.replicate 10 (1/2)])
          0.015) 5 0.015 =
      (Part000.trimAudio (AudioBuffer.mk 100 10 [List.replicate 10 (1/2)])
          0.015).length ∧
    Part000.trimAudio
        (Part000.trimAudio (AudioBuffer.mk 100 10 [List.replicate 10 (1/2)])
          0.015) 0.015 ≠
      Part000.trimAudio (AudioBuffer.mk 100 10 [List.replicate 10 (1/2)])
        0.015 := by
  with_unfolding_all decide

set_option maxRecDepth 80000 in
/-- C6 (counterexample): with `reverbLevel = 1` the chain `masterAudio`
builds is not a function of `(buffer, options)`: two runs that differ only
in the host's `Math.random` stream produce different graphs (the convolver
impulse is freshly sampled white noise). -/
theorem C6_counterexample :
    Part000.masterAudioChain (fun x => x) (fun _ => 1/2)
        (AudioBuffer.mk 2 8 [[0, 0, 0, 0, 0, 0, 0, 0]])
        (Part000.MasteringOptions.mk .podcast 0 0 0 0 (some 1)) ≠
      Part000.masterAudioChain (fun x => x) (fun _ => 1)
        (AudioBuffer.mk 2 8 [[0, 0, 0, 0, 0, 0, 0, 0]])
        (Part000.MasteringOptions.mk .podcast 0 0 0 0 (some 1)) := by
  intro h
  have h2 := congrArg Part000.MasteringChain.reverb h
  revert h2
  with_unfolding_all decide

/-- C6 (amended): when the reverb level is absent or `≤ 0`,
`createMasteringChain` never consults the random stream, so the chain
`masterAudio` builds is a pure function of `(buffer, options)`. -/
theorem C6_amended (pow07 : ℚ → ℚ) (r1 r2 : ℕ → ℚ) (b : AudioBuffer)
    (options : Part000.MasteringOptions)
    (h : options.reverbLevel.getD 0 ≤ 0) :
    Part000.masterAudioChain pow07 r1 b options =
      Part000.masterAudioChain pow07 r2 b options := by
  have h2 := not_lt.mpr h
  simp [Part000.masterAudioChain, Part000.createMasteringChain, h2]

/-- Witness for `C6_amended`. -/
theorem C6_amended_witness :
    Part000.masterAudioChain (fun x => x) (fun _ => 0)
        (AudioBuffer.mk 4 8 [[0, 0, 0, 0, 0, 0, 0, 0]])
        (Part000.MasteringOptions.mk .music 1 1 1 1 (some 0)) =
      Part000.masterAudioChain (fun x => x) (fun _ => 1)
        (AudioBuffer.mk 4 8 [[0, 0, 0, 0, 0, 0, 0, 0]])
        (Part000.MasteringOptions.mk .music 1 1 1 1 (some 0)) :=
  C6_amended (fun x => x) (fun _ => 0) (fun _ => 1)
    (AudioBuffer.mk 4 8 [[0, 0, 0, 0, 0, 0, 0, 0]])
    (Part000.MasteringOptions.mk .music 1 1 1 1 (some 0)) (by norm_num)

/-- C7 (counterexample): at 100 Hz with `segmentDuration = 0.05` s every
chunk has `segmentLen = 5 < 0.1 * sampleRate = 10` samples, so the
`part_000` slicer discards every chunk of a 20-sample buffer: the returned
list is empty and the 20 discarded samples are not a final remainder shorter
than 0.1 s. -/
theorem C7_counterexample :
    Part000.segmentLengthOf (AudioBuffer.mk 100 20 [List.replicate 20 (1/2)])
        0.05 = 5 ∧
    Part000.sliceLoop (AudioBuffer.mk 100 20 [List.replicate 20 (1/2)])
        (Part000.segmentLengthOf
          (AudioBuffer.mk 100 20 [List.replicate 20 (1/2)]) 0.05)
        (100 / 100) 20 0 = some [] ∧
    ¬ (((20 : ℕ) : ℚ) -
        ((List.map AudioBuffer.length ([] : List AudioBuffer)).sum : ℕ) <
        (100 : ℚ) / 10) := by
  with_unfolding_all decide

/-- C8 (counterexample): the `audioUtils.ts` variant of `sliceAudioBuffer`
applies no fades at all: slicing a constant-`0.5` buffer (100 Hz,
`segmentDuration = 0.02` s, so a 10 ms fade would cover 1 sample) returns
raw copies whose boundary samples are the unscaled `0.5`, not `~0`. -/
theorem C8_counterexample :
    AudioUtils.segmentLengthOf (AudioBuffer.mk 100 4 [List.replicate 4 (1/2)])
        0.02 = 2 ∧
    AudioUtils.sliceLoop (AudioBuffer.mk 100 4 [List.replicate 4 (1/2)])
        2 4 0 =
      some [AudioBuffer.mk 100 2 [[1/2, 1/2]],
        AudioBuffer.mk 100 2 [[1/2, 1/2]]] ∧
    (AudioBuffer.mk 100 2 [[(1 : ℚ)/2, 1/2]]).sample 0 0 = 1/2 ∧
    ((1 : ℚ)/2) ≠ 0 := by
  with_unfolding_all decide

/-- Both sources compute the same chunk length (the two variants write the
product in either order). -/
lemma segmentLengthOf_eq (b : AudioBuffer) (d : ℚ) :
    Part000.segmentLengthOf b d = AudioUtils.segmentLengthOf b d := by
  unfold Part000.segmentLengthOf AudioUtils.segmentLengthOf
  rw [mul_comm]

/-- With `segmentLength = 0` the `audioUtils.ts` chunking loop never
advances: no amount of fuel completes it. -/
lemma AudioUtils.sliceLoop_zero_segLen (b : AudioBuffer) (hb : 0 < b.length) :
    ∀ fuel, AudioUtils.sliceLoop b 0 fuel 0 = none := by
  intro fuel
  induction fuel with
  | zero => simp [AudioUtils.sliceLoop, hb]
  | succ n ih => simp [AudioUtils.sliceLoop, hb, ih]

/-- With `segmentLen = 0` the `part_000` chunking loop never advances
either. -/
lemma Part000.sliceLoopP_zero_segLen (b : AudioBuffer) (fadeLen : ℕ)
    (hb : 0 < b.length) :
    ∀ fuel, Part000.sliceLoop b 0 fadeLen fuel 0 = none := by
  intro fuel
  induction fuel with
  | zero => simp [Part000.sliceLoop, hb]
  | succ n ih => simp [Part000.sliceLoop, hb, ih]

/-- With `segmentLength ≥ 1`, fuel equal to the number of remaining samples
completes the `audioUtils.ts` chunking loop. -/
lemma AudioUtils.sliceLoop_isSome (b : AudioBuffer) (segLen : ℕ) :
    ∀ fuel offset, b.length ≤ offset + fuel * segLen →
      (AudioUtils.sliceLoop b segLen fuel offset).isSome := by
  intro fuel
  induction fuel with
  | zero =>
    intro offset h
    simp only [Nat.zero_mul, Nat.add_zero] at h
    have ho : ¬ offset < b.length := by omega
    simp [AudioUtils.sliceLoop, ho]
  | succ n ih =>
    intro offset h
    rw [Nat.succ_mul] at h
    by_cases ho : offset < b.length
    · have hs := ih (offset + segLen) (by omega)
      simp only [AudioUtils.sliceLoop, if_pos ho]
      simpa [Option.isSome_map] using hs
    · simp [AudioUtils.sliceLoop, ho]

/-- With `segmentLen ≥ 1`, fuel equal to the number of remaining samples
completes the `part_000` chunking loop. -/
lemma Part000.sliceLoopP_isSome (b : AudioBuffer) (segLen fadeLen : ℕ) :
    ∀ fuel offset, b.length ≤ offset + fuel * segLen →
      (Part000.sliceLoop b segLen fadeLen fuel offset).isSome := by
  intro fuel
  induction fuel with
  | zero =>
    intro offset h
    simp only [Nat.zero_mul, Nat.add_zero] at h
    have ho : ¬ offset < b.length := by omega
    simp [Part000.sliceLoop, ho]
  | succ n ih =>
    intro offset h
    rw [Nat.succ_mul] at h
    by_cases ho : offset < b.length
    · have hs := ih (offset + segLen) (by omega)
      simp only [Part000.sliceLoop, if_pos ho]
      split
      · exact hs
      · simpa [Option.isSome_map] using hs
    · simp [Part000.sliceLoop, ho]

/-- C10: both `sliceAudioBuffer` loops terminate (with fuel bounded by the
buffer length) whenever `floor(segmentDuration * sampleRate) ≥ 1`, and the
precondition is necessary: with `floor(segmentDuration * sampleRate) = 0`
and a non-empty buffer the offset never advances, so no fuel completes the
loop — the function does not terminate. -/
theorem C10_termination (b : AudioBuffer) (d : ℚ) :
    (1 ≤ AudioUtils.segmentLengthOf b d →
      (∃ cs, AudioUtils.sliceLoop b (AudioUtils.segmentLengthOf b d)
        b.length 0 = some cs) ∧
      (∃ cs, Part000.sliceLoop b (Part000.segmentLengthOf b d)
        (b.sampleRate / 100) b.length 0 = some cs)) ∧
    (AudioUtils.segmentLengthOf b d = 0 → 0 < b.length →
      ∀ fuel,
        AudioUtils.sliceLoop b (AudioUtils.segmentLengthOf b d) fuel 0 =
          none ∧
        Part000.sliceLoop b (Part000.segmentLengthOf b d)
          (b.sampleRate / 100) fuel 0 = none) := by
  constructor
  · intro h1
    have hfuel : b.length ≤ 0 + b.length * AudioUtils.segmentLengthOf b d := by
      have := Nat.le_mul_of_pos_right b.length h1
      omega
    constructor
    · exact Option.isSome_iff_exists.mp
        (AudioUtils.sliceLoop_isSome b _ b.length 0 hfuel)
    · rw [segmentLengthOf_eq]
      exact Option.isSome_iff_exists.mp
        (Part000.sliceLoopP_isSome b _ _ b.length 0 hfuel)
  · intro h0 hb fuel
    constructor
    · rw [h0]
      exact AudioUtils.sliceLoop_zero_segLen b hb fuel
    · rw [segmentLengthOf_eq, h0]
      exact Part000.sliceLoopP_zero_segLen b _ hb fuel

/-- Witness for `C10_termination`. -/
theorem C10_witness :
    (∃ cs, AudioUtils.sliceLoop (AudioBuffer.mk 20 5 [List.replicate 5 1])
      (AudioUtils.segmentLengthOf (AudioBuffer.mk 20 5 [List.replicate 5 1])
        (1/5)) 5 0 = some cs) ∧
    AudioUtils.sliceLoop (AudioBuffer.mk 20 5 [List.replicate 5 1])
      (AudioUtils.segmentLengthOf (AudioBuffer.mk 20 5 [List.replicate 5 1])
        0) 3 0 = none := by
  constructor
  · exact ((C10_termination (AudioBuffer.mk 20 5 [List.replicate 5 1])
      (1/5)).1 (by with_unfolding_all decide)).1
  · exact (((C10_termination (AudioBuffer.mk 20 5 [List.replicate 5 1])
      0).2 (by with_unfolding_all decide) (by decide)) 3).1

/-- Length of a `part_000` chunk. -/
lemma Part000.mkChunk_length (b : AudioBuffer) (segLen fadeLen offset : ℕ) :
    (Part000.mkChunk b segLen fadeLen offset).length =
      min (offset + segLen) b.length - offset := rfl

/-- Length of an `audioUtils.ts` segment. -/
lemma AudioUtils.mkSegment_length (b : AudioBuffer) (segLen offset : ℕ) :
    (AudioUtils.mkSegment b segLen offset).length =
      min segLen (b.length - offset) := rfl

/-- Characterisation of the `part_000` chunking loop when full chunks pass
the 0.1 s filter (`segLen ≥ sampleRate / 10`): the result consists of the
full windows at offsets `offset + k * segLen`, followed by the final partial
window exactly when it is non-empty and at least 0.1 s long. -/
lemma Part000.sliceLoop_spec (b : AudioBuffer) (segLen fadeLen : ℕ)
    (h1 : 1 ≤ segLen) (hbig : (b.sampleRate : ℚ) / 10 ≤ (segLen : ℚ)) :
    ∀ fuel offset chunks,
      Part000.sliceLoop b segLen fadeLen fuel offset = some chunks →
      chunks =
        (List.range ((b.length - offset) / segLen)).map
          (fun k => Part000.mkChunk b segLen fadeLen (offset + k * segLen)) ++
        (if (b.length - offset) % segLen = 0 ∨
            (((b.length - offset) % segLen : ℕ) : ℚ) < (b.sampleRate : ℚ) / 10
         then []
         else [Part000.mkChunk b segLen fadeLen
                (offset + (b.length - offset) / segLen * segLen)]) := by
  intro fuel
  induction fuel with
  | zero =>
    intro offset chunks h
    simp only [Part000.sliceLoop] at h
    split at h
    · exact absurd h (by simp)
    · have hc : chunks = [] := by simpa using h.symm
      have hm : b.length - offset = 0 := by omega
      simp [hc, hm]
  | succ n ih =>
    intro offset chunks h
    simp only [Part000.sliceLoop] at h
    by_cases ho : offset < b.length
    · rw [if_pos ho] at h
      have hmin : min (offset + segLen) b.length - offset =
          min segLen (b.length - offset) := by omega
      rw [hmin] at h
      by_cases hcase : segLen ≤ b.length - offset
      · -- a full window: kept because segLen ≥ 0.1 s
        rw [show min segLen (b.length - offset) = segLen from by omega,
          if_neg (not_lt.mpr hbig)] at h
        cases hx : Part000.sliceLoop b segLen fadeLen n (offset + segLen) with
        | none => rw [hx] at h; exact absurd h (by simp)
        | some rest =>
          rw [hx] at h
          simp only [Option.map_some', Option.some.injEq] at h
          have hrec := ih (offset + segLen) rest hx
          have hlen : b.length - (offset + segLen) =
              b.length - offset - segLen := by omega
          rw [hlen] at hrec
          have hdiv : (b.length - offset) / segLen =
              (b.length - offset - segLen) / segLen + 1 :=
            Nat.div_eq_sub_div (by omega) hcase
          have hmod : (b.length - offset) % segLen =
              (b.length - offset - segLen) % segLen :=
            Nat.mod_eq_sub_mod hcase
          subst h
          rw [hrec, hdiv, hmod, List.range_succ_eq_map]
          simp only [List.map_cons, List.map_map, Nat.zero_mul, Nat.add_zero,
            List.cons_append]
          congr 2
          · apply List.map_congr_left
            intro k _
            simp only [Function.comp_apply, Nat.succ_eq_add_one]
            congr 1
            ring
          · congr 2
            ring_nf
      · -- the final partial window
        have hm1 : 1 ≤ b.length - offset := by omega
        rw [show min segLen (b.length - offset) = b.length - offset from by
          omega] at h
        have hdiv : (b.length - offset) / segLen = 0 :=
          Nat.div_eq_of_lt (by omega)
        have hmod : (b.length - offset) % segLen = b.length - offset :=
          Nat.mod_eq_of_lt (by omega)
        have hnext : b.length - (offset + segLen) = 0 := by omega
        by_cases hd : ((b.length - offset : ℕ) : ℚ) < (b.sampleRate : ℚ) / 10
        · rw [if_pos hd] at h
          have hrec := ih (offset + segLen) chunks h
          rw [hnext] at hrec
          simp only [Nat.zero_div, List.range_zero, List.map_nil,
            Nat.zero_mod, List.nil_append, true_or, if_pos] at hrec
          rw [hrec, hdiv, hmod]
          simp [hd]
        · rw [if_neg hd] at h
          cases hx : Part000.sliceLoop b segLen fadeLen n (offset + segLen) with
          | none => rw [hx] at h; exact absurd h (by simp)
          | some rest =>
            rw [hx] at h
            simp only [Option.map_some', Option.some.injEq] at h
            have hrec := ih (offset + segLen) rest hx
            rw [hnext] at hrec
            simp only [Nat.zero_div, List.range_zero, List.map_nil,
              Nat.zero_mod, List.nil_append, true_or, if_pos] at hrec
            subst h
            rw [hrec, hdiv, hmod]
            have : ¬ (b.length - offset = 0 ∨
                ((b.length - offset : ℕ) : ℚ) < (b.sampleRate : ℚ) / 10) := by
              push_neg
              exact ⟨by omega, not_lt.mp hd⟩
            simp [this]
    · rw [if_neg ho] at h
      have hc : chunks = [] := by simpa using h.symm
      have hm : b.length - offset = 0 := by omega
      simp [hc, hm]

/-- The `audioUtils.ts` chunking loop keeps every sample: the chunk lengths
sum to the number of samples from the current offset to the end. -/
lemma AudioUtils.sliceLoop_sum (b : AudioBuffer) (segLen : ℕ) :
    ∀ fuel offset chunks,
      AudioUtils.sliceLoop b segLen fuel offset = some chunks →
      (chunks.map AudioBuffer.length).sum = b.length - offset := by
  intro fuel
  induction fuel with
  | zero =>
    intro offset chunks h
    simp only [AudioUtils.sliceLoop] at h
    split at h
    · exact absurd h (by simp)
    · have hc : chunks = [] := by simpa using h.symm
      simp [hc]
      omega
  | succ n ih =>
    intro offset chunks h
    simp only [AudioUtils.sliceLoop] at h
    by_cases ho : offset < b.length
    · rw [if_pos ho] at h
      cases hx : AudioUtils.sliceLoop b segLen n (offset + segLen) with
      | none => rw [hx] at h; exact absurd h (by simp)
      | some rest =>
        rw [hx] at h
        simp only [Option.map_some', Option.some.injEq] at h
        have hrec := ih (offset + segLen) rest hx
        subst h
        simp only [List.map_cons, List.sum_cons, hrec,
          AudioUtils.mkSegment_length]
        omega
    · rw [if_neg ho] at h
      have hc : chunks = [] := by simpa using h.symm
      simp [hc]
      omega

/-- `getD` inside a replicate prefix. -/
lemma getD_replicate_lt {α : Type} (q i : ℕ) (s d : α) (h : i < q) :
    (List.replicate q s).getD i d = s := by
  rw [List.getD_eq_getElem?_getD, List.getElem?_replicate]
  simp [h]

/-- C7 (amended): for the `part_000` slicer, whenever
`floor(d * sampleRate) ≥ 1` and `floor(d * sampleRate) ≥ 0.1 * sampleRate`
(so that only the final chunk can be shorter than 0.1 s), the returned
chunks are the consecutive non-overlapping windows at offsets
`i * segmentLen`: their lengths sum to the buffer length minus a discarded
final remainder shorter than 0.1 s, every chunk except possibly the last has
length `floor(d * sampleRate)`, and no chunk is longer.  The
`audioUtils.ts` slicer discards nothing: its chunk lengths always sum
exactly to the buffer length. -/
theorem C7_amended (b : AudioBuffer) (d : ℚ) (fuel fuel2 : ℕ)
    (chunks chunks2 : List AudioBuffer)
    (hrate : 0 < b.sampleRate)
    (h1 : 1 ≤ Part000.segmentLengthOf b d)
    (hbig : (b.sampleRate : ℚ) / 10 ≤ ((Part000.segmentLengthOf b d : ℕ) : ℚ))
    (hp : Part000.sliceLoop b (Part000.segmentLengthOf b d)
      (b.sampleRate / 100) fuel 0 = some chunks)
    (ha : AudioUtils.sliceLoop b (AudioUtils.segmentLengthOf b d) fuel2 0 =
      some chunks2) :
    (∃ discard : ℕ,
      (chunks.map AudioBuffer.length).sum + discard = b.length ∧
      ((discard : ℕ) : ℚ) < (b.sampleRate : ℚ) / 10) ∧
    (∀ i, i + 1 < chunks.length →
      (chunks.map AudioBuffer.length).getD i 0 = Part000.segmentLengthOf b d) ∧
    (∀ i, i < chunks.length →
      (chunks.map AudioBuffer.length).getD i 0 ≤ Part000.segmentLengthOf b d) ∧
    (∀ i, i < chunks.length →
      chunks.getD i (AudioBuffer.mk 0 0 []) =
        Part000.mkChunk b (Part000.segmentLengthOf b d) (b.sampleRate / 100)
          (i * Part000.segmentLengthOf b d)) ∧
    (chunks2.map AudioBuffer.length).sum = b.length := by
  set s := Part000.segmentLengthOf b d with hs
  set f := b.sampleRate / 100 with hf
  have hch := Part000.sliceLoop_spec b s f h1 hbig fuel 0 chunks hp
  simp only [Nat.sub_zero, Nat.zero_add] at hch
  set q := b.length / s with hq
  set r := b.length % s with hr
  have hqr : s * q + r = b.length := Nat.div_add_mod b.length s
  have hqr2 : q * s + r = b.length := by rw [Nat.mul_comm q s]; exact hqr
  have hrs : r < s := Nat.mod_lt _ (by omega)
  have hrQ : (0 : ℚ) < (b.sampleRate : ℚ) / 10 := by
    have : (0 : ℚ) < (b.sampleRate : ℚ) := by exact_mod_cast hrate
    linarith
  have hfull : ∀ k, k < q →
      (Part000.mkChunk b s f (k * s)).length = s := by
    intro k hk
    rw [Part000.mkChunk_length]
    have e1 : (k + 1) * s = k * s + s := Nat.succ_mul k s
    have e2 : (k + 1) * s ≤ q * s := Nat.mul_le_mul_right s (by omega)
    have e3 : q * s = s * q := Nat.mul_comm q s
    omega
  have htail : (Part000.mkChunk b s f (q * s)).length = r := by
    rw [Part000.mkChunk_length]
    have e3 : q * s = s * q := Nat.mul_comm q s
    omega
  have hlens : chunks.map AudioBuffer.length =
      List.replicate q s ++
        (if r = 0 ∨ ((r : ℕ) : ℚ) < (b.sampleRate : ℚ) / 10 then []
         else [r]) := by
    rw [hch, List.map_append, List.map_map]
    congr 1
    · refine List.eq_replicate_iff.mpr ⟨by simp, ?_⟩
      intro x hx
      simp only [List.mem_map, List.mem_range, Function.comp_apply] at hx
      obtain ⟨k, hk, rfl⟩ := hx
      exact hfull k hk
    · split
      · simp
      · simpa using htail
  have hlen_chunks : chunks.length =
      q + (if r = 0 ∨ ((r : ℕ) : ℚ) < (b.sampleRate : ℚ) / 10 then 0
           else 1) := by
    have h2 := congrArg List.length hlens
    rw [List.length_map, List.length_append, List.length_replicate] at h2
    rw [h2]
    congr 1
    split <;> simp
  refine ⟨?_, ?_, ?_, ?_, ?_⟩
  · -- the sum of lengths, with the discarded remainder
    by_cases hcond : r = 0 ∨ ((r : ℕ) : ℚ) < (b.sampleRate : ℚ) / 10
    · refine ⟨r, ?_, ?_⟩
      · rw [hlens, if_pos hcond]
        simp [List.sum_replicate, smul_eq_mul]
        omega
      · rcases hcond with h0 | hlt
        · rw [h0]; exact_mod_cast hrQ
        · exact hlt
    · refine ⟨0, ?_, hrQ⟩
      rw [hlens, if_neg hcond]
      simp [List.sum_replicate, smul_eq_mul]
      omega
  · -- every chunk but the last is a full window
    intro i hi
    rw [hlens]
    have hiq : i < q := by
      rw [hlen_chunks] at hi
      split at hi <;> omega
    rw [List.getD_append _ _ _ _ (by simpa using hiq)]
    exact getD_replicate_lt q i s 0 hiq
  · -- no chunk exceeds a full window
    intro i hi
    rw [hlen_chunks] at hi
    rw [hlens]
    by_cases hiq : i < q
    · rw [List.getD_append _ _ _ _ (by simpa using hiq),
        getD_replicate_lt q i s 0 hiq]
    · have hcond : ¬ (r = 0 ∨ ((r : ℕ) : ℚ) < (b.sampleRate : ℚ) / 10) := by
        by_contra hc
        rw [if_pos hc] at hi
        omega
      rw [if_neg hcond] at hi ⊢
      have hieq : i = q := by omega
      rw [List.getD_append_right _ _ _ _ (by simpa using hiq)]
      simp [hieq]
      omega
  · -- chunk `i` is the window at offset `i * segmentLen`
    intro i hi
    rw [hlen_chunks] at hi
    rw [hch]
    by_cases hiq : i < q
    · rw [List.getD_append _ _ _ _ (by simpa using hiq)]
      rw [List.getD_eq_getElem?_getD, List.getElem?_map, List.getElem?_range
        hiq]
      rfl
    · have hcond : ¬ (r = 0 ∨ ((r : ℕ) : ℚ) < (b.sampleRate : ℚ) / 10) := by
        by_contra hc
        rw [if_pos hc] at hi
        omega
      rw [if_neg hcond] at hi ⊢
      have hieq : i = q := by omega
      rw [List.getD_append_right _ _ _ _ (by simpa using hiq)]
      simp [hieq]
  · -- the audioUtils slicer keeps every sample
    have := AudioUtils.sliceLoop_sum b (AudioUtils.segmentLengthOf b d)
      fuel2 0 chunks2 ha
    simpa using this

/-- Witness for `C7_amended`. -/
theorem C7_amended_witness :
    (∃ discard : ℕ,
      (([AudioBuffer.mk 20 4 [[1, 1, 1, 1]]].map AudioBuffer.length).sum +
        discard = 5) ∧
      ((discard : ℕ) : ℚ) < (20 : ℚ) / 10) ∧
    ([AudioBuffer.mk 20 4 [[1, 1, 1, 1]],
      AudioBuffer.mk 20 1 [[1]]].map AudioBuffer.length).sum = 5 := by
  have h := C7_amended (AudioBuffer.mk 20 5 [List.replicate 5 1]) (1/5) 5 5
    [AudioBuffer.mk 20 4 [[1, 1, 1, 1]]]
    [AudioBuffer.mk 20 4 [[1, 1, 1, 1]], AudioBuffer.mk 20 1 [[1]]]
    (by norm_num) (by with_unfolding_all decide)
    (by with_unfolding_all decide) (by with_unfolding_all decide)
    (by with_unfolding_all decide)
  exact ⟨h.1, h.2.2.2.2⟩

/-- The fades preserve list length. -/
lemma length_fadeIn (f : ℕ) (l : List ℚ) : (fadeIn f l).length = l.length := by
  simp [fadeIn]

/-- The fades preserve list length. -/
lemma length_fadeOut (f : ℕ) (l : List ℚ) : (fadeOut f l).length = l.length := by
  simp [fadeOut]

/-- Reading an in-range element of `mapIdx`. -/
lemma getD_mapIdx (l : List ℚ) (g : ℕ → ℚ → ℚ) (j : ℕ) (h : j < l.length) :
    (l.mapIdx g).getD j 0 = g j (l.getD j 0) := by
  have h2 : j < (l.mapIdx g).length := by simpa using h
  rw [List.getD_eq_getElem?_getD, List.getElem?_eq_getElem h2,
    List.getD_eq_getElem?_getD, List.getElem?_eq_getElem h]
  simp [List.getElem_mapIdx]

/-- Reading an in-range element of a fade-in. -/
lemma getD_fadeIn (f : ℕ) (l : List ℚ) (j : ℕ) (h : j < l.length) :
    (fadeIn f l).getD j 0 =
      if j < f then l.getD j 0 * ((j : ℚ) / (f : ℚ)) else l.getD j 0 := by
  unfold fadeIn
  exact getD_mapIdx l _ j h

/-- Reading an in-range element of a fade-out. -/
lemma getD_fadeOut (f : ℕ) (l : List ℚ) (j : ℕ) (h : j < l.length) :
    (fadeOut f l).getD j 0 =
      if l.length - 1 - j < f then
        l.getD j 0 * (((l.length - 1 - j : ℕ) : ℚ) / (f : ℚ))
      else l.getD j 0 := by
  unfold fadeOut
  exact getD_mapIdx l _ j h

/-- `padTo` is the identity on a list that already has the target length. -/
lemma padTo_eq (n : ℕ) (l : List ℚ) (h : l.length = n) : padTo n l = l := by
  simp [padTo, h]

/-- One faded copied window, sample-wise: position `j` holds the source
sample at `s + j` scaled by the combined fade factor. -/
lemma fadedSlice_getD (f L s : ℕ) (ch : List ℚ) (j : ℕ)
    (hL : s + L ≤ ch.length) (hj : j < L) :
    (fadeOut f (fadeIn f (padTo L ((ch.drop s).take L)))).getD j 0 =
      ch.getD (s + j) 0 * fadeFactor f L j := by
  have hslice : ((ch.drop s).take L).length = L := by
    simp only [List.length_take, List.length_drop]
    omega
  rw [padTo_eq _ _ hslice]
  have hlenIn : (fadeIn f ((ch.drop s).take L)).length = L := by
    rw [length_fadeIn, hslice]
  have hgetSlice : ((ch.drop s).take L).getD j 0 = ch.getD (s + j) 0 := by
    rw [List.getD_eq_getElem?_getD, List.getElem?_take_of_lt hj,
      List.getElem?_drop, List.getD_eq_getElem?_getD]
  rw [getD_fadeOut f _ j (by rw [hlenIn]; exact hj), hlenIn,
    getD_fadeIn f _ j (by rw [hslice]; exact hj), hgetSlice]
  unfold fadeFactor
  by_cases c1 : j < f <;> by_cases c2 : L - 1 - j < f <;>
    simp [c1, c2] <;> ring

/-- An in-range sample of a `part_000` chunk is the source sample scaled by
the fade factor; an out-of-range channel reads `0` on both sides. -/
lemma Part000.mkChunk_sample (b : AudioBuffer) (segLen fadeLen offset : ℕ)
    (hwf : b.WellFormed) (c j : ℕ)
    (hj : j < (Part000.mkChunk b segLen fadeLen offset).length) :
    (Part000.mkChunk b segLen fadeLen offset).sample c j =
      b.sample c (offset + j) *
        fadeFactor fadeLen (min (offset + segLen) b.length - offset) j := by
  have hjL : j < min (offset + segLen) b.length - offset := hj
  unfold Part000.mkChunk AudioBuffer.sample
  by_cases hc : c < b.channels.length
  · have hmap : ∀ F : List ℚ → List ℚ,
        (b.channels.map F).getD c [] = F (b.channels.getD c []) := by
      intro F
      rw [List.getD_eq_getElem?_getD, List.getElem?_map,
        List.getElem?_eq_getElem hc, List.getD_eq_getElem?_getD,
        List.getElem?_eq_getElem hc]
      rfl
    simp only [hmap]
    have hmem : b.channels.getD c [] ∈ b.channels := by
      rw [List.getD_eq_getElem?_getD, List.getElem?_eq_getElem hc]
      exact List.getElem_mem hc
    have hch : (b.channels.getD c []).length = b.length := hwf _ hmem
    exact fadedSlice_getD fadeLen _ offset _ j (by omega) hjL
  · have h1 : (b.channels.map (fun ch =>
        fadeOut fadeLen (fadeIn fadeLen (padTo
          (min (offset + segLen) b.length - offset)
          ((ch.drop offset).take
            (min (offset + segLen) b.length - offset)))))).getD c [] = [] :=
      List.getD_eq_default _ _ (by simpa using Nat.le_of_not_lt hc)
    have h2 : b.channels.getD c [] = [] :=
      List.getD_eq_default _ _ (Nat.le_of_not_lt hc)
    rw [h1, h2]
    simp

/-- The fade shape of one kept chunk, in the form the claim uses. -/
lemma Part000.mkChunk_fades (b : AudioBuffer) (segLen offset : ℕ)
    (hwf : b.WellFormed)
    (hL : (b.sampleRate : ℚ) / 10 ≤
      (((Part000.mkChunk b segLen (b.sampleRate / 100) offset).length : ℕ) :
        ℚ)) :
    2 * (b.sampleRate / 100) ≤
      (Part000.mkChunk b segLen (b.sampleRate / 100) offset).length ∧
    (∀ c j, j < b.sampleRate / 100 →
      (Part000.mkChunk b segLen (b.sampleRate / 100) offset).sample c j =
        b.sample c (offset + j) *
          ((j : ℚ) / ((b.sampleRate / 100 : ℕ) : ℚ))) ∧
    (∀ c j, j < b.sampleRate / 100 →
      (Part000.mkChunk b segLen (b.sampleRate / 100) offset).sample c
          ((Part000.mkChunk b segLen (b.sampleRate / 100) offset).length -
            1 - j) =
        b.sample c (offset +
          ((Part000.mkChunk b segLen (b.sampleRate / 100) offset).length -
            1 - j)) *
          ((j : ℚ) / ((b.sampleRate / 100 : ℕ) : ℚ))) ∧
    (∀ c j, b.sampleRate / 100 ≤ j →
      j + b.sampleRate / 100 <
        (Part000.mkChunk b segLen (b.sampleRate / 100) offset).length →
      (Part000.mkChunk b segLen (b.sampleRate / 100) offset).sample c j =
        b.sample c (offset + j)) := by
  set f := b.sampleRate / 100 with hfdef
  set L := (Part000.mkChunk b segLen f offset).length with hLdef
  have hLval : L = min (offset + segLen) b.length - offset :=
    Part000.mkChunk_length b segLen f offset
  have hfq : ((f : ℕ) : ℚ) * 100 ≤ (b.sampleRate : ℚ) := by
    exact_mod_cast Nat.div_mul_le_self b.sampleRate 100
  have h2f : 2 * f ≤ L := by
    have hq : ((2 * f : ℕ) : ℚ) ≤ ((L : ℕ) : ℚ) := by
      push_cast
      push_cast at hfq
      linarith
    exact_mod_cast hq
  refine ⟨h2f, ?_, ?_, ?_⟩
  · intro c j hj
    have hjL : j < L := by omega
    rw [Part000.mkChunk_sample b segLen f offset hwf c j
      (by rw [← hLdef]; exact hjL)]
    rw [← hLval]
    unfold fadeFactor
    rw [if_pos hj, if_neg (by omega : ¬ (L - 1 - j < f))]
    ring
  · intro c j hj
    have hkL : L - 1 - j < L := by omega
    rw [Part000.mkChunk_sample b segLen f offset hwf c (L - 1 - j)
      (by rw [← hLdef]; exact hkL)]
    rw [← hLval]
    unfold fadeFactor
    rw [if_neg (by omega : ¬ (L - 1 - j < f)),
      show L - 1 - (L - 1 - j) = j from by omega, if_pos hj]
    ring
  · intro c j hj1 hj2
    have hjL : j < L := by omega
    rw [Part000.mkChunk_sample b segLen f offset hwf c j
      (by rw [← hLdef]; exact hjL)]
    rw [← hLval]
    unfold fadeFactor
    rw [if_neg (by omega : ¬ (j < f)), if_neg (by omega : ¬ (L - 1 - j < f))]
    ring

/-- C8 (amended): every chunk the `part_000` slicer returns is a window of
the source with the 10 ms linear fades applied: writing
`fadeLen = sampleRate / 100`, sample `j < fadeLen` holds the source sample
scaled by `j / fadeLen` (so the first boundary sample is scaled by exactly
`0` and the ramp rises monotonically to `(fadeLen - 1) / fadeLen ≈ 1`),
symmetrically at the tail, and all interior samples are copied unscaled.
The `audioUtils.ts` slicer applies no fades (see the counterexample). -/
theorem C8_amended (b : AudioBuffer) (d : ℚ) (fuel : ℕ)
    (chunks : List AudioBuffer) (hwf : b.WellFormed)
    (h1 : 1 ≤ Part000.segmentLengthOf b d)
    (hbig : (b.sampleRate : ℚ) / 10 ≤ ((Part000.segmentLengthOf b d : ℕ) : ℚ))
    (hp : Part000.sliceLoop b (Part000.segmentLengthOf b d)
      (b.sampleRate / 100) fuel 0 = some chunks) :
    ∀ chunk ∈ chunks, ∃ offset : ℕ,
      2 * (b.sampleRate / 100) ≤ chunk.length ∧
      (∀ c j, j < b.sampleRate / 100 →
        chunk.sample c j =
          b.sample c (offset + j) *
            ((j : ℚ) / ((b.sampleRate / 100 : ℕ) : ℚ))) ∧
      (∀ c j, j < b.sampleRate / 100 →
        chunk.sample c (chunk.length - 1 - j) =
          b.sample c (offset + (chunk.length - 1 - j)) *
            ((j : ℚ) / ((b.sampleRate / 100 : ℕ) : ℚ))) ∧
      (∀ c j, b.sampleRate / 100 ≤ j →
        j + b.sampleRate / 100 < chunk.length →
        chunk.sample c j = b.sample c (offset + j)) := by
  intro chunk hc
  set s := Part000.segmentLengthOf b d with hs
  rw [Part000.sliceLoop_spec b s (b.sampleRate / 100) h1 hbig fuel 0 chunks
    hp] at hc
  simp only [Nat.sub_zero, Nat.zero_add, List.mem_append, List.mem_map,
    List.mem_range] at hc
  have hqr : s * (b.length / s) + b.length % s = b.length :=
    Nat.div_add_mod b.length s
  rcases hc with ⟨k, hk, rfl⟩ | htl
  · -- a full window at offset k * s
    refine ⟨k * s, Part000.mkChunk_fades b s (k * s) hwf ?_⟩
    have hlen : (Part000.mkChunk b s (b.sampleRate / 100) (k * s)).length =
        s := by
      rw [Part000.mkChunk_length]
      have e1 : (k + 1) * s = k * s + s := Nat.succ_mul k s
      have e2 : (k + 1) * s ≤ (b.length / s) * s :=
        Nat.mul_le_mul_right s (by omega)
      have e3 : (b.length / s) * s = s * (b.length / s) :=
        Nat.mul_comm _ s
      omega
    rw [hlen]
    exact hbig
  · -- the kept final partial window
    by_cases hcond : b.length % s = 0 ∨
        ((b.length % s : ℕ) : ℚ) < (b.sampleRate : ℚ) / 10
    · rw [if_pos hcond] at htl
      exact absurd htl (by simp)
    · rw [if_neg hcond] at htl
      have hchunk : chunk = Part000.mkChunk b s (b.sampleRate / 100)
          (b.length / s * s) := by simpa using htl
      subst hchunk
      refine ⟨b.length / s * s, Part000.mkChunk_fades b s _ hwf ?_⟩
      have hrs : b.length % s < s := Nat.mod_lt _ (by omega)
      have hlen : (Part000.mkChunk b s (b.sampleRate / 100)
          (b.length / s * s)).length = b.length % s := by
        rw [Part000.mkChunk_length]
        have e3 : (b.length / s) * s = s * (b.length / s) :=
          Nat.mul_comm _ s
        omega
      rw [hlen]
      push_neg at hcond
      exact hcond.2

/-- Witness for `C8_amended`. -/
theorem C8_amended_witness :
    ∃ offset : ℕ,
      2 * (100 / 100) ≤
        (AudioBuffer.mk 100 10
          [(0 : ℚ) :: List.replicate 8 (1/2) ++ [0]]).length ∧
      (∀ c j, j < 100 / 100 →
        (AudioBuffer.mk 100 10
            [(0 : ℚ) :: List.replicate 8 (1/2) ++ [0]]).sample c j =
          (AudioBuffer.mk 100 12 [List.replicate 12 (1/2)]).sample c
              (offset + j) *
            ((j : ℚ) / ((100 / 100 : ℕ) : ℚ))) ∧
      (∀ c j, j < 100 / 100 →
        (AudioBuffer.mk 100 10
            [(0 : ℚ) :: List.replicate 8 (1/2) ++ [0]]).sample c
            ((AudioBuffer.mk 100 10
              [(0 : ℚ) :: List.replicate 8 (1/2) ++ [0]]).length - 1 - j) =
          (AudioBuffer.mk 100 12 [List.replicate 12 (1/2)]).sample c
              (offset +
                ((AudioBuffer.mk 100 10
                  [(0 : ℚ) :: List.replicate 8 (1/2) ++ [0]]).length
                    - 1 - j)) *
            ((j : ℚ) / ((100 / 100 : ℕ) : ℚ))) ∧
      (∀ c j, 100 / 100 ≤ j →
        j + 100 / 100 <
          (AudioBuffer.mk 100 10
            [(0 : ℚ) :: List.replicate 8 (1/2) ++ [0]]).length →
        (AudioBuffer.mk 100 10
            [(0 : ℚ) :: List.replicate 8 (1/2) ++ [0]]).sample c j =
          (AudioBuffer.mk 100 12 [List.replicate 12 (1/2)]).sample c
            (offset + j)) := by
  exact C8_amended (AudioBuffer.mk 100 12 [List.replicate 12 (1/2)]) (1/10) 12
    [AudioBuffer.mk 100 10 [(0 : ℚ) :: List.replicate 8 (1/2) ++ [0]]]
    (by with_unfolding_all decide) (by with_unfolding_all decide)
    (by with_unfolding_all decide) (by with_unfolding_all decide)
    (AudioBuffer.mk 100 10 [(0 : ℚ) :: List.replicate 8 (1/2) ++ [0]])
    (List.mem_singleton.mpr rfl)

/-- If no forward window is loud, the forward scan leaves `start = 0`. -/
lemma Part000.trimFindStart_quiet (b : AudioBuffer) (w : ℕ) (t : ℚ)
    (h : ∀ i ∈ loopIndices b.length w,
      Part000.windowAvg b i (min (i + w) b.length) ≤ t) :
    Part000.trimFindStart b w t = 0 := by
  have hn : (loopIndices b.length w).find?
      (fun i => decide (t < Part000.windowAvg b i (min (i + w) b.length))) =
        none := by
    apply List.find?_eq_none.mpr
    intro x hx
    simpa using not_lt.mpr (h x hx)
  unfold Part000.trimFindStart
  rw [hn]

/-- If no backward window is loud, the backward scan leaves `end = len`. -/
lemma Part000.trimFindEnd_quiet (b : AudioBuffer) (w : ℕ) (t : ℚ)
    (h : ∀ i ∈ backIndices b.length w,
      Part000.windowAvg b (i - w) i ≤ t) :
    Part000.trimFindEnd b w t = b.length := by
  have hn : (backIndices b.length w).find?
      (fun i => decide (t < Part000.windowAvg b (i - w) i)) = none := by
    apply List.find?_eq_none.mpr
    intro x hx
    simpa using not_lt.mpr (h x hx)
  unfold Part000.trimFindEnd
  rw [hn]

/-- `trimAudio` keeps the sample rate. -/
lemma Part000.trimAudio_sampleRate (b : AudioBuffer) (t : ℚ) :
    (Part000.trimAudio b t).sampleRate = b.sampleRate := by
  unfold Part000.trimAudio
  dsimp only
  split <;> rfl

/-- `trimAudio` keeps the buffer invariant. -/
lemma Part000.trimAudio_wellFormed (b : AudioBuffer) (t : ℚ)
    (hwf : b.WellFormed) : (Part000.trimAudio b t).WellFormed := by
  unfold Part000.trimAudio
  dsimp only
  split
  · exact hwf
  · intro ch hch
    simp only [List.mem_map] at hch
    obtain ⟨ch0, _, rfl⟩ := hch
    show (fadeOut _ (fadeIn _ (padTo _ _))).length = _
    rw [length_fadeOut, length_fadeIn]
    unfold padTo
    simp only [List.length_append, List.length_replicate, List.length_take,
      List.length_drop]
    omega

/-- A sample read past the end of a well-formed buffer is `0`. -/
lemma AudioBuffer.sample_oob (b : AudioBuffer) (hwf : b.WellFormed)
    (c j : ℕ) (h : b.length ≤ j) : b.sample c j = 0 := by
  unfold AudioBuffer.sample
  by_cases hc : c < b.channels.length
  · have hmem : b.channels.getD c [] ∈ b.channels := by
      rw [List.getD_eq_getElem?_getD, List.getElem?_eq_getElem hc]
      exact List.getElem_mem hc
    exact List.getD_eq_default _ _ (by rw [hwf _ hmem]; exact h)
  · rw [List.getD_eq_default _ _ (Nat.le_of_not_lt hc)]
    rfl

/-- A chunk sample past the chunk length is `0` (every produced channel has
exactly the chunk's length). -/
lemma Part000.mkChunk_sample_oob (b : AudioBuffer) (segLen fadeLen offset : ℕ)
    (c j : ℕ) (h : (Part000.mkChunk b segLen fadeLen offset).length ≤ j) :
    (Part000.mkChunk b segLen fadeLen offset).sample c j = 0 := by
  rw [Part000.mkChunk_length] at h
  unfold Part000.mkChunk AudioBuffer.sample
  dsimp only
  simp only [List.getD_eq_getElem?_getD, List.getElem?_map]
  cases hx : b.channels[c]? with
  | none => simp
  | some ch =>
    simp only [Option.map_some', Option.getD_some]
    rw [List.getElem?_eq_none ?hl]
    · rfl
    case hl =>
      rw [length_fadeOut, length_fadeIn]
      unfold padTo
      simp only [List.length_append, List.length_replicate, List.length_take,
        List.length_drop]
      omega

/-- When the scans return `start = 0` and `end = length` on a non-empty
buffer, `trimAudio` produces exactly the full-length 20 ms-faded copy. -/
lemma Part000.trimAudio_fullscan (b : AudioBuffer) (t : ℚ)
    (hwf : b.WellFormed) (h0 : 0 < b.length)
    (hs : Part000.trimFindStart b (b.sampleRate / 20) t = 0)
    (he : Part000.trimFindEnd b (b.sampleRate / 20) t = b.length) :
    (Part000.trimAudio b t).length = b.length ∧
    ∀ c j, (Part000.trimAudio b t).sample c j =
      b.sample c j * fadeFactor (b.sampleRate / 50) b.length j := by
  have hEq : Part000.trimAudio b t =
      Part000.mkChunk b b.length (b.sampleRate / 50) 0 := by
    unfold Part000.trimAudio Part000.mkChunk
    dsimp only
    rw [hs, he, if_neg (by omega : ¬ (b.length ≤ 0))]
    simp [Nat.zero_add, min_self, Nat.sub_zero]
  have hLen : (Part000.mkChunk b b.length (b.sampleRate / 50) 0).length =
      b.length := by
    rw [Part000.mkChunk_length]
    omega
  constructor
  · rw [hEq, hLen]
  · intro c j
    rw [hEq]
    by_cases hj : j < b.length
    · have hSamp := Part000.mkChunk_sample b b.length (b.sampleRate / 50) 0
        hwf c j (by rw [hLen]; exact hj)
      simpa using hSamp
    · rw [Part000.mkChunk_sample_oob b b.length (b.sampleRate / 50) 0 c j
        (by rw [hLen]; omega),
        AudioBuffer.sample_oob b hwf c j (by omega)]
      ring

/-- C4 (amended): `trimAudio` returns the input unchanged only when the
computed `start ≥ end`.  For a non-empty buffer that is below threshold in
every forward and backward analysis window, the scans give `start = 0` and
`end = length`, so the result is a full-length copy with the 20 ms fades
applied (sample `j` is the input sample scaled by the fade factor) — the
length is preserved but the boundary samples are modified.  In all cases the
result of a non-empty input is non-empty (never empty or inverted). -/
theorem C4_amended :
    (∀ (b : AudioBuffer) (t : ℚ), b.WellFormed → 0 < b.length →
      (∀ i ∈ loopIndices b.length (b.sampleRate / 20),
        Part000.windowAvg b i (min (i + b.sampleRate / 20) b.length) ≤ t) →
      (∀ i ∈ backIndices b.length (b.sampleRate / 20),
        Part000.windowAvg b (i - b.sampleRate / 20) i ≤ t) →
      (Part000.trimAudio b t).length = b.length ∧
      ∀ c j, (Part000.trimAudio b t).sample c j =
        b.sample c j * fadeFactor (b.sampleRate / 50) b.length j) ∧
    (∀ (b : AudioBuffer) (t : ℚ), 0 < b.length →
      0 < (Part000.trimAudio b t).length) := by
  constructor
  · intro b t hwf h0 hfw hbw
    exact Part000.trimAudio_fullscan b t hwf h0
      (Part000.trimFindStart_quiet b _ t hfw)
      (Part000.trimFindEnd_quiet b _ t hbw)
  · intro b t h0
    unfold Part000.trimAudio
    dsimp only
    split
    · exact h0
    · show 0 < Part000.trimFindEnd b (b.sampleRate / 20) t -
        Part000.trimFindStart b (b.sampleRate / 20) t
      omega

/-- Witness for `C4_amended`. -/
theorem C4_amended_witness :
    ((Part000.trimAudio (AudioBuffer.mk 100 6 [List.replicate 6 (1/100)])
        0.015).length = 6 ∧
      ∀ c j, (Part000.trimAudio
          (AudioBuffer.mk 100 6 [List.replicate 6 (1/100)]) 0.015).sample c
            j =
        (AudioBuffer.mk 100 6 [List.replicate 6 (1/100)]).sample c j *
          fadeFactor (100 / 50) 6 j) ∧
    0 < (Part000.trimAudio (AudioBuffer.mk 100 6 [List.replicate 6 (1/100)])
        0.015).length := by
  constructor
  · exact C4_amended.1 (AudioBuffer.mk 100 6 [List.replicate 6 (1/100)])
      0.015 (by decide) (by norm_num) (by with_unfolding_all decide)
      (by with_unfolding_all decide)
  · exact C4_amended.2 (AudioBuffer.mk 100 6 [List.replicate 6 (1/100)])
      0.015 (by norm_num)

/-- C5 (amended): under the claim's hypothesis (the second scan finds
`start = 0` and `end = length` on the trimmed result), `trimAudio` applied
twice preserves the length, and agrees with a single application on every
interior sample — all indices `j` with `fadeSamples ≤ j` and
`j + fadeSamples < length`.  Only the 20 ms fade regions at both ends are
attenuated again (see the counterexample), so idempotence holds exactly
outside them. -/
theorem C5_amended (b : AudioBuffer) (t : ℚ) (hwf : b.WellFormed)
    (h0 : 0 < (Part000.trimAudio b t).length)
    (hs : Part000.trimFindStart (Part000.trimAudio b t)
      (b.sampleRate / 20) t = 0)
    (he : Part000.trimFindEnd (Part000.trimAudio b t)
      (b.sampleRate / 20) t = (Part000.trimAudio b t).length) :
    (Part000.trimAudio (Part000.trimAudio b t) t).length =
      (Part000.trimAudio b t).length ∧
    ∀ c j, b.sampleRate / 50 ≤ j →
      j + b.sampleRate / 50 < (Part000.trimAudio b t).length →
      (Part000.trimAudio (Part000.trimAudio b t) t).sample c j =
        (Part000.trimAudio b t).sample c j := by
  have hrate := Part000.trimAudio_sampleRate b t
  have hwf2 := Part000.trimAudio_wellFormed b t hwf
  have hfull := Part000.trimAudio_fullscan (Part000.trimAudio b t) t hwf2 h0
    (by rw [hrate]; exact hs) (by rw [hrate]; exact he)
  refine ⟨hfull.1, ?_⟩
  intro c j hj1 hj2
  rw [hfull.2 c j, hrate]
  unfold fadeFactor
  rw [if_neg (by omega : ¬ (j < b.sampleRate / 50)),
    if_neg (by omega :
      ¬ ((Part000.trimAudio b t).length - 1 - j < b.sampleRate / 50))]
  ring

/-- Witness for `C5_amended`. -/
theorem C5_amended_witness :
    (Part000.trimAudio (Part000.trimAudio
        (AudioBuffer.mk 100 10 [List.replicate 10 (1/2)]) 0.015)
        0.015).length =
      (Part000.trimAudio (AudioBuffer.mk 100 10 [List.replicate 10 (1/2)])
        0.015).length ∧
    ∀ c j, 100 / 50 ≤ j →
      j + 100 / 50 < (Part000.trimAudio
        (AudioBuffer.mk 100 10 [List.replicate 10 (1/2)]) 0.015).length →
      (Part000.trimAudio (Part000.trimAudio
          (AudioBuffer.mk 100 10 [List.replicate 10 (1/2)]) 0.015)
          0.015).sample c j =
        (Part000.trimAudio (AudioBuffer.mk 100 10 [List.replicate 10 (1/2)])
          0.015).sample c j :=
  C5_amended (AudioBuffer.mk 100 10 [List.replicate 10 (1/2)]) 0.015
    (by decide) (by with_unfolding_all decide)
    (by with_unfolding_all decide) (by with_unfolding_all decide)

/-- Interleaving equal-length channels yields their combined length. -/
lemma AudioUtils.interleave_length :
    ∀ (L R : List ℚ), L.length = R.length →
      (AudioUtils.interleave L R).length = L.length + R.length := by
  intro L
  induction L with
  | nil =>
    intro R h
    have : R = [] := List.eq_nil_of_length_eq_zero h.symm
    subst this
    rfl
  | cons x xs ih =>
    intro R h
    cases R with
    | nil => simp at h
    | cons y ys =>
      have h2 : xs.length = ys.length := by simpa using h
      show (x :: y :: AudioUtils.interleave xs ys).length = _
      simp [ih ys h2]
      omega

/-- Interleaved samples alternate L/R: position `2k` holds `L[k]` and
position `2k + 1` holds `R[k]`. -/
lemma AudioUtils.interleave_getD :
    ∀ (L R : List ℚ), L.length = R.length → ∀ k, k < L.length →
      (AudioUtils.interleave L R).getD (2 * k) 0 = L.getD k 0 ∧
      (AudioUtils.interleave L R).getD (2 * k + 1) 0 = R.getD k 0 := by
  intro L
  induction L with
  | nil => intro R h k hk; simp at hk
  | cons x xs ih =>
    intro R h k hk
    cases R with
    | nil => simp at h
    | cons y ys =>
      have h2 : xs.length = ys.length := by simpa using h
      show ((x :: y :: AudioUtils.interleave xs ys).getD (2 * k) 0 =
          (x :: xs).getD k 0) ∧
        ((x :: y :: AudioUtils.interleave xs ys).getD (2 * k + 1) 0 =
          (y :: ys).getD k 0)
      cases k with
      | zero => exact ⟨rfl, rfl⟩
      | succ k =>
        have hk2 : k < xs.length := by simpa using hk
        have e1 : 2 * (k + 1) = 2 * k + 1 + 1 := by ring
        have e2 : 2 * (k + 1) + 1 = 2 * k + 1 + 1 + 1 := by ring
        constructor
        · rw [e1, List.getD_cons_succ, List.getD_cons_succ]
          exact (ih ys h2 k hk2).1
        · rw [e2, List.getD_cons_succ, List.getD_cons_succ]
          exact (ih ys h2 k hk2).2

/-- `floatTo16BitPCM` writes exactly two bytes per sample. -/
lemma AudioUtils.floatTo16BitPCM_length (samples : List ℚ) :
    (AudioUtils.floatTo16BitPCM samples).length = 2 * samples.length := by
  induction samples with
  | nil => rfl
  | cons x xs ih =>
    show (AudioUtils.int16LE (AudioUtils.pcm16Int x) ++
      AudioUtils.floatTo16BitPCM xs).length = _
    simp only [List.length_append, ih, AudioUtils.int16LE, List.length_cons,
      List.length_nil]
    omega

/-- Every encoded sample value lies in the signed 16-bit range. -/
lemma AudioUtils.pcm16Int_range (x : ℚ) :
    -32768 ≤ AudioUtils.pcm16Int x ∧ AudioUtils.pcm16Int x ≤ 32767 := by
  unfold AudioUtils.pcm16Int AudioUtils.truncQ
  dsimp only
  set s := max (-1) (min 1 x) with hs
  have hs1 : (-1 : ℚ) ≤ s := le_max_left _ _
  have hs2 : s ≤ 1 := max_le (by norm_num) (min_le_left _ _)
  by_cases hneg : s < 0
  · rw [if_pos hneg, if_pos (by nlinarith : s * 32768 < 0)]
    have hup : ⌊-(s * 32768)⌋ ≤ 32768 := by
      calc ⌊-(s * 32768)⌋ ≤ ⌊(32768 : ℚ)⌋ :=
            Int.floor_le_floor (by nlinarith)
        _ = 32768 := by norm_num
    have hlo : 0 ≤ ⌊-(s * 32768)⌋ :=
      Int.floor_nonneg.mpr (by nlinarith)
    omega
  · rw [if_neg hneg]
    have hpos : (0 : ℚ) ≤ s * 32767 := by nlinarith [not_lt.mp hneg]
    rw [if_neg (not_lt.mpr hpos)]
    have hup : ⌊s * 32767⌋ ≤ 32767 := by
      calc ⌊s * 32767⌋ ≤ ⌊(32767 : ℚ)⌋ := Int.floor_le_floor (by nlinarith)
        _ = 32767 := by norm_num
    have hlo : 0 ≤ ⌊s * 32767⌋ := Int.floor_nonneg.mpr hpos
    omega

/-- Decoding the four little-endian bytes of `setUint32` recovers the value
modulo `2 ^ 32`. -/
lemma AudioUtils.uint32LE_readLE (v : ℕ) :
    AudioUtils.readLE (AudioUtils.uint32LE v) 0 4 = v % 2 ^ 32 := by
  show v % 2 ^ 32 % 256 * 256 ^ 0 +
      (v % 2 ^ 32 / 256 % 256 * 256 ^ 1 +
        (v % 2 ^ 32 / 2 ^ 16 % 256 * 256 ^ 2 +
          (v % 2 ^ 32 / 2 ^ 24 % 256 * 256 ^ 3 + 0))) = v % 2 ^ 32
  have e : (256 : ℕ) ^ 0 = 1 ∧ (256 : ℕ) ^ 1 = 256 ∧
      (256 : ℕ) ^ 2 = 65536 ∧ (256 : ℕ) ^ 3 = 16777216 ∧
      (2 : ℕ) ^ 16 = 65536 ∧ (2 : ℕ) ^ 24 = 16777216 ∧
      (2 : ℕ) ^ 32 = 4294967296 := by norm_num
  rw [e.1, e.2.1, e.2.2.1, e.2.2.2.1, e.2.2.2.2.1, e.2.2.2.2.2.1,
    e.2.2.2.2.2.2]
  omega

/-- Decoding the two little-endian bytes of `setUint16` recovers the value
modulo `2 ^ 16`. -/
lemma AudioUtils.uint16LE_readLE (v : ℕ) :
    AudioUtils.readLE (AudioUtils.uint16LE v) 0 2 = v % 2 ^ 16 := by
  show v % 2 ^ 16 % 256 * 256 ^ 0 + (v % 2 ^ 16 / 256 * 256 ^ 1 + 0) =
    v % 2 ^ 16
  have e : (256 : ℕ) ^ 0 = 1 ∧ (256 : ℕ) ^ 1 = 256 ∧
      (2 : ℕ) ^ 16 = 65536 := by norm_num
  rw [e.1, e.2.1, e.2.2]
  omega

set_option maxHeartbeats 1000000 in
/-- C9: for every stereo buffer the WAV encoder emits the 44-byte canonical
little-endian PCM header — `RIFF` / `WAVE` / `fmt ` / `data` chunk tags,
format 1 (PCM), 2 channels, the sample rate, byte rate `4 * rate`, block
align 4, 16 bits per sample, data-chunk byte length `2 ×` the total sample
count and RIFF length `36 +` the data bytes — followed by the samples
interleaved L/R, each clamped to `[-1, 1]`, scaled by 32768 when negative
and by 32767 otherwise, so every emitted sample value lies in the int16
range. -/
theorem C9_wav_encoder (L R : List ℚ) (rate : ℕ)
    (hLR : L.length = R.length)
    (hn : 36 + 2 * (L.length + R.length) < 2 ^ 32)
    (hrate : rate * 4 < 2 ^ 32) :
    (AudioUtils.wavOut L R rate).length = 44 + 2 * (L.length + R.length) ∧
    (AudioUtils.wavOut L R rate).take 4 = [82, 73, 70, 70] ∧
    ((AudioUtils.wavOut L R rate).drop 8).take 4 = [87, 65, 86, 69] ∧
    ((AudioUtils.wavOut L R rate).drop 12).take 4 = [102, 109, 116, 32] ∧
    ((AudioUtils.wavOut L R rate).drop 36).take 4 = [100, 97, 116, 97] ∧
    AudioUtils.readLE (((AudioUtils.wavOut L R rate).drop 4).take 4) 0 4 =
      36 + 2 * (L.length + R.length) ∧
    AudioUtils.readLE (((AudioUtils.wavOut L R rate).drop 16).take 4) 0 4 =
      16 ∧
    AudioUtils.readLE (((AudioUtils.wavOut L R rate).drop 20).take 2) 0 2 =
      1 ∧
    AudioUtils.readLE (((AudioUtils.wavOut L R rate).drop 22).take 2) 0 2 =
      2 ∧
    AudioUtils.readLE (((AudioUtils.wavOut L R rate).drop 24).take 4) 0 4 =
      rate ∧
    AudioUtils.readLE (((AudioUtils.wavOut L R rate).drop 28).take 4) 0 4 =
      rate * 4 ∧
    AudioUtils.readLE (((AudioUtils.wavOut L R rate).drop 32).take 2) 0 2 =
      4 ∧
    AudioUtils.readLE (((AudioUtils.wavOut L R rate).drop 34).take 2) 0 2 =
      16 ∧
    AudioUtils.readLE (((AudioUtils.wavOut L R rate).drop 40).take 4) 0 4 =
      2 * (L.length + R.length) ∧
    (AudioUtils.wavOut L R rate).drop 44 =
      AudioUtils.floatTo16BitPCM (AudioUtils.interleave L R) ∧
    (∀ k < L.length,
      (AudioUtils.interleave L R).getD (2 * k) 0 = L.getD k 0 ∧
      (AudioUtils.interleave L R).getD (2 * k + 1) 0 = R.getD k 0) ∧
    (∀ x : ℚ, -32768 ≤ AudioUtils.pcm16Int x ∧
      AudioUtils.pcm16Int x ≤ 32767) := by
  have hil := AudioUtils.interleave_length L R hLR
  refine ⟨?_, rfl, rfl, rfl, rfl, ?_, ?_, ?_, ?_, ?_, ?_, ?_, ?_, ?_, rfl,
    fun k hk => AudioUtils.interleave_getD L R hLR k hk,
    fun x => AudioUtils.pcm16Int_range x⟩
  · -- total length
    have h44 : (AudioUtils.wavOut L R rate).length =
        44 + (AudioUtils.floatTo16BitPCM (AudioUtils.interleave L R)).length
      := by
      show (AudioUtils.encodeWAV (AudioUtils.interleave L R) 2 rate 1
        16).length = _
      simp [AudioUtils.encodeWAV, AudioUtils.uint32LE, AudioUtils.uint16LE]
      omega
    rw [h44, AudioUtils.floatTo16BitPCM_length, hil]
  · rw [show ((AudioUtils.wavOut L R rate).drop 4).take 4 =
      AudioUtils.uint32LE
        (36 + (AudioUtils.interleave L R).length * 2) from rfl,
      AudioUtils.uint32LE_readLE, hil]
    omega
  · rw [show ((AudioUtils.wavOut L R rate).drop 16).take 4 =
      AudioUtils.uint32LE 16 from rfl, AudioUtils.uint32LE_readLE]
    omega
  · rw [show ((AudioUtils.wavOut L R rate).drop 20).take 2 =
      AudioUtils.uint16LE 1 from rfl, AudioUtils.uint16LE_readLE]
    omega
  · rw [show ((AudioUtils.wavOut L R rate).drop 22).take 2 =
      AudioUtils.uint16LE 2 from rfl, AudioUtils.uint16LE_readLE]
    omega
  · rw [show ((AudioUtils.wavOut L R rate).drop 24).take 4 =
      AudioUtils.uint32LE rate from rfl, AudioUtils.uint32LE_readLE]
    omega
  · rw [show ((AudioUtils.wavOut L R rate).drop 28).take 4 =
      AudioUtils.uint32LE (rate * 4) from rfl, AudioUtils.uint32LE_readLE]
    omega
  · rw [show ((AudioUtils.wavOut L R rate).drop 32).take 2 =
      AudioUtils.uint16LE 4 from rfl, AudioUtils.uint16LE_readLE]
    omega
  · rw [show ((AudioUtils.wavOut L R rate).drop 34).take 2 =
      AudioUtils.uint16LE 16 from rfl, AudioUtils.uint16LE_readLE]
    omega
  · rw [show ((AudioUtils.wavOut L R rate).drop 40).take 4 =
      AudioUtils.uint32LE ((AudioUtils.interleave L R).length * 2) from rfl,
      AudioUtils.uint32LE_readLE, hil]
    omega

/-- Witness for `C9_wav_encoder`. -/
theorem C9_wav_encoder_witness :
    (AudioUtils.wavOut [1/2, -1] [0, 1/4] 8000).length = 44 + 2 * (2 + 2) ∧
    AudioUtils.readLE
      (((AudioUtils.wavOut [1/2, -1] [0, 1/4] 8000).drop 4).take 4) 0 4 =
      36 + 2 * (2 + 2) := by
  have h := C9_wav_encoder [1/2, -1] [0, 1/4] 8000 rfl (by norm_num)
    (by norm_num)
  exact ⟨h.1, h.2.2.2.2.2.1⟩

end SebasAudio
